import Mathlib

/-!
Verification of the js-analysis code rewriter.

This file gives a shallow embedding of the repository's rewrite driver
(src/lib/rewriteCode.js) together with the pattern engine it consumes
(lib/patterns.js, whose behaviour is pinned by the test suite shipped in
src and by the specification), and proves the specification's claims
about them.

Modelling conventions:
 * ESTree nodes become the inductive type `Node`.  Source position and
   formatting metadata is omitted (matching and equality in the source
   ignore it).  Constant flags that the driver never varies
   (`generator`/`async` on functions, `prefix` on unary operators, the
   `kind`/`shorthand`/`computed` bookkeeping on object properties) are
   omitted as well.
 * The mutable in-place tree rewrite of estraverse.replace becomes a
   pure recursive traversal: `enter` is the pre-order hook, `leaveStep`
   the post-order hook, and `visitF` the traversal itself, driven by a
   fuel argument that `rewrite` instantiates with the tree size.
 * Machine strings are Lean `String`s; string comparison is modelled by
   `streq`, structural deep equality of nodes by `nodeBEq`.
-/

namespace JsA

/-- Literal values carried by ESTree Literal nodes (the fragments the
driver manipulates only need numbers, booleans and strings). -/
inductive Lit where
  | num (n : Int)
  | bool (b : Bool)
  | str (s : String)

/-- ESTree nodes, plus the two placeholder node kinds produced by the
pattern compiler of lib/patterns.js (the tests in src pin their names:
StatementPlaceholder with an expectMultiLine flag, ExpressionPlaceholder
with an allowDeclarations flag).  Generic placeholders stay ordinary
identifiers whose name follows the placeholderN convention. -/
inductive Node where
  | literal (v : Lit)
  | identifier (name : String)
  | unaryExpression (op : String) (argument : Node)
  | binaryExpression (op : String) (left right : Node)
  | logicalExpression (op : String) (left right : Node)
  | assignmentExpression (op : String) (left right : Node)
  | conditionalExpression (test consequent alternate : Node)
  | sequenceExpression (expressions : List Node)
  | callExpression (callee : Node) (arguments : List Node)
  | memberExpression (object prop : Node) (computed : Bool)
  | objectExpression (properties : List Node)
  | property (key value : Node)
  | expressionStatement (expression : Node)
  | ifStatement (test consequent : Node) (alternate : Option Node)
  | whileStatement (test body : Node)
  | doWhileStatement (body test : Node)
  | forStatement (ini test update : Option Node) (body : Node)
  | forInStatement (left right body : Node)
  | forOfStatement (left right body : Node)
  | functionDeclaration (id : Node) (params : List Node) (body : Node)
  | returnStatement (argument : Option Node)
  | blockStatement (body : List Node)
  | program (body : List Node)
  | variableDeclaration (kind : String) (declarations : List Node)
  | variableDeclarator (id : Node) (ini : Option Node)
  | switchStatement (discriminant : Node) (cases : List Node)
  | switchCase (test : Option Node) (consequent : List Node)
  | tryStatement (block : Node) (handler finalizer : Option Node)
  | labeledStatement (label body : Node)
  | breakStatement
  | continueStatement
  | throwStatement (argument : Node)
  | statementPlaceholder (index : Nat) (expectMultiLine : Bool)
  | expressionPlaceholder (index : Nat) (allowDeclarations : Bool)

/-- String comparison, reduced to the underlying character lists so that
all proofs and evaluations stay within structural recursion. -/
def streq (a b : String) : Bool := a.data == b.data

theorem streq_iff (a b : String) : streq a b = true ↔ a = b := by
  cases a with
  | mk da =>
    cases b with
    | mk db =>
      constructor
      · intro h
        have : da = db := by
          have h2 : (da == db) = true := h
          exact beq_iff_eq.1 h2
        simp [this]
      · intro h
        cases h
        simp [streq]

theorem streq_refl (a : String) : streq a a = true := (streq_iff a a).2 rfl

/-- Literal equality (deep equality on the value payload). -/
def litBEq (a b : Lit) : Bool :=
  match a, b with
  | .num x, .num y => x == y
  | .bool x, .bool y => x == y
  | .str x, .str y => streq x y
  | _, _ => false

theorem litBEq_iff (a b : Lit) : litBEq a b = true ↔ a = b := by
  cases a <;> cases b <;> simp [litBEq, streq_iff]

mutual
/-- Structural size of a node: one per node, used as the traversal fuel
bound and as the measure for every strong induction in this file. -/
def size : Node → Nat
  | .literal _ => 1
  | .identifier _ => 1
  | .unaryExpression _ a => 1 + size a
  | .binaryExpression _ l r => 1 + size l + size r
  | .logicalExpression _ l r => 1 + size l + size r
  | .assignmentExpression _ l r => 1 + size l + size r
  | .conditionalExpression t c a => 1 + size t + size c + size a
  | .sequenceExpression es => 1 + sizeL es
  | .callExpression c args => 1 + size c + sizeL args
  | .memberExpression o p _ => 1 + size o + size p
  | .objectExpression ps => 1 + sizeL ps
  | .property k v => 1 + size k + size v
  | .expressionStatement e => 1 + size e
  | .ifStatement t c a => 1 + size t + size c + sizeO a
  | .whileStatement t b => 1 + size t + size b
  | .doWhileStatement b t => 1 + size b + size t
  | .forStatement i t u b => 1 + sizeO i + sizeO t + sizeO u + size b
  | .forInStatement l r b => 1 + size l + size r + size b
  | .forOfStatement l r b => 1 + size l + size r + size b
  | .functionDeclaration i ps b => 1 + size i + sizeL ps + size b
  | .returnStatement a => 1 + sizeO a
  | .blockStatement b => 1 + sizeL b
  | .program b => 1 + sizeL b
  | .variableDeclaration _ ds => 1 + sizeL ds
  | .variableDeclarator i v => 1 + size i + sizeO v
  | .switchStatement d cs => 1 + size d + sizeL cs
  | .switchCase t c => 1 + sizeO t + sizeL c
  | .tryStatement b h f => 1 + size b + sizeO h + sizeO f
  | .labeledStatement l b => 1 + size l + size b
  | .breakStatement => 1
  | .continueStatement => 1
  | .throwStatement a => 1 + size a
  | .statementPlaceholder _ _ => 1
  | .expressionPlaceholder _ _ => 1

def sizeL : List Node → Nat
  | [] => 0
  | n :: ns => size n + sizeL ns

def sizeO : Option Node → Nat
  | none => 0
  | some n => size n
end

theorem size_pos : ∀ n : Node, 0 < size n := by
  intro n
  cases n <;> simp [size]

theorem sizeL_mem {c : Node} : ∀ {l : List Node}, c ∈ l → size c ≤ sizeL l := by
  intro l h
  induction l with
  | nil => cases h
  | cons a as ih =>
    cases h with
    | head => simp [sizeL]
    | tail _ h2 => have := ih h2; simp [sizeL]; omega

mutual
/-- Deep structural equality of nodes, the equality that both the
matcher's placeholder consistency check and the test suite's deep-equal
assertions use (position metadata already being absent from `Node`). -/
def nodeBEq : Node → Node → Bool
  | .literal v, n => match n with
      | .literal w => litBEq v w
      | _ => false
  | .identifier s, n => match n with
      | .identifier t => streq s t
      | _ => false
  | .unaryExpression op a, n => match n with
      | .unaryExpression op2 a2 => streq op op2 && nodeBEq a a2
      | _ => false
  | .binaryExpression op l r, n => match n with
      | .binaryExpression op2 l2 r2 => streq op op2 && nodeBEq l l2 && nodeBEq r r2
      | _ => false
  | .logicalExpression op l r, n => match n with
      | .logicalExpression op2 l2 r2 => streq op op2 && nodeBEq l l2 && nodeBEq r r2
      | _ => false
  | .assignmentExpression op l r, n => match n with
      | .assignmentExpression op2 l2 r2 => streq op op2 && nodeBEq l l2 && nodeBEq r r2
      | _ => false
  | .conditionalExpression t c a, n => match n with
      | .conditionalExpression t2 c2 a2 => nodeBEq t t2 && nodeBEq c c2 && nodeBEq a a2
      | _ => false
  | .sequenceExpression es, n => match n with
      | .sequenceExpression es2 => nodeBEqL es es2
      | _ => false
  | .callExpression c args, n => match n with
      | .callExpression c2 args2 => nodeBEq c c2 && nodeBEqL args args2
      | _ => false
  | .memberExpression o p cm, n => match n with
      | .memberExpression o2 p2 cm2 => nodeBEq o o2 && nodeBEq p p2 && (cm == cm2)
      | _ => false
  | .objectExpression ps, n => match n with
      | .objectExpression ps2 => nodeBEqL ps ps2
      | _ => false
  | .property k v, n => match n with
      | .property k2 v2 => nodeBEq k k2 && nodeBEq v v2
      | _ => false
  | .expressionStatement e, n => match n with
      | .expressionStatement e2 => nodeBEq e e2
      | _ => false
  | .ifStatement t c a, n => match n with
      | .ifStatement t2 c2 a2 => nodeBEq t t2 && nodeBEq c c2 && nodeBEqO a a2
      | _ => false
  | .whileStatement t b, n => match n with
      | .whileStatement t2 b2 => nodeBEq t t2 && nodeBEq b b2
      | _ => false
  | .doWhileStatement b t, n => match n with
      | .doWhileStatement b2 t2 => nodeBEq b b2 && nodeBEq t t2
      | _ => false
  | .forStatement i t u b, n => match n with
      | .forStatement i2 t2 u2 b2 => nodeBEqO i i2 && nodeBEqO t t2 && nodeBEqO u u2 && nodeBEq b b2
      | _ => false
  | .forInStatement l r b, n => match n with
      | .forInStatement l2 r2 b2 => nodeBEq l l2 && nodeBEq r r2 && nodeBEq b b2
      | _ => false
  | .forOfStatement l r b, n => match n with
      | .forOfStatement l2 r2 b2 => nodeBEq l l2 && nodeBEq r r2 && nodeBEq b b2
      | _ => false
  | .functionDeclaration i ps b, n => match n with
      | .functionDeclaration i2 ps2 b2 => nodeBEq i i2 && nodeBEqL ps ps2 && nodeBEq b b2
      | _ => false
  | .returnStatement a, n => match n with
      | .returnStatement a2 => nodeBEqO a a2
      | _ => false
  | .blockStatement b, n => match n with
      | .blockStatement b2 => nodeBEqL b b2
      | _ => false
  | .program b, n => match n with
      | .program b2 => nodeBEqL b b2
      | _ => false
  | .variableDeclaration k ds, n => match n with
      | .variableDeclaration k2 ds2 => streq k k2 && nodeBEqL ds ds2
      | _ => false
  | .variableDeclarator i v, n => match n with
      | .variableDeclarator i2 v2 => nodeBEq i i2 && nodeBEqO v v2
      | _ => false
  | .switchStatement d cs, n => match n with
      | .switchStatement d2 cs2 => nodeBEq d d2 && nodeBEqL cs cs2
      | _ => false
  | .switchCase t c, n => match n with
      | .switchCase t2 c2 => nodeBEqO t t2 && nodeBEqL c c2
      | _ => false
  | .tryStatement b h f, n => match n with
      | .tryStatement b2 h2 f2 => nodeBEq b b2 && nodeBEqO h h2 && nodeBEqO f f2
      | _ => false
  | .labeledStatement l b, n => match n with
      | .labeledStatement l2 b2 => nodeBEq l l2 && nodeBEq b b2
      | _ => false
  | .breakStatement, n => match n with
      | .breakStatement => true
      | _ => false
  | .continueStatement, n => match n with
      | .continueStatement => true
      | _ => false
  | .throwStatement a, n => match n with
      | .throwStatement a2 => nodeBEq a a2
      | _ => false
  | .statementPlaceholder i m, n => match n with
      | .statementPlaceholder i2 m2 => (i == i2) && (m == m2)
      | _ => false
  | .expressionPlaceholder i d, n => match n with
      | .expressionPlaceholder i2 d2 => (i == i2) && (d == d2)
      | _ => false

def nodeBEqL : List Node → List Node → Bool
  | [], l => match l with
      | [] => true
      | _ => false
  | a :: as, l => match l with
      | b :: bs => nodeBEq a b && nodeBEqL as bs
      | _ => false

def nodeBEqO : Option Node → Option Node → Bool
  | none, o => match o with
      | none => true
      | _ => false
  | some a, o => match o with
      | some b => nodeBEq a b
      | _ => false
end

set_option maxHeartbeats 2000000 in
theorem nodeBEq_iff_all :
    (∀ a : Node, ∀ b : Node, nodeBEq a b = true ↔ a = b) ∧
    ((∀ ao : Option Node, ∀ bo : Option Node, nodeBEqO ao bo = true ↔ ao = bo) ∧
     (∀ as : List Node, ∀ bs : List Node, nodeBEqL as bs = true ↔ as = bs)) := by
  apply size.mutual_induct
    (fun a => ∀ b : Node, nodeBEq a b = true ↔ a = b)
    (fun ao => ∀ bo : Option Node, nodeBEqO ao bo = true ↔ ao = bo)
    (fun as => ∀ bs : List Node, nodeBEqL as bs = true ↔ as = bs)
  all_goals intros
  all_goals rename_i b
  all_goals cases b <;> simp_all [nodeBEq, nodeBEqL, nodeBEqO, litBEq_iff, streq_iff, and_assoc]

theorem nodeBEq_iff (a b : Node) : nodeBEq a b = true ↔ a = b := nodeBEq_iff_all.1 a b

instance : DecidableEq Node := fun a b => decidable_of_iff (nodeBEq a b = true) (nodeBEq_iff a b)

/-- Strip a prefix from a character list, returning the remainder. -/
def dropPre : List Char → List Char → Option (List Char)
  | [], rest => some rest
  | _ :: _, [] => none
  | p :: ps, c :: cs => if p == c then dropPre ps cs else none

/-- Modelled from the spec: lib/patterns.js is not under src; the spec
says generic placeholders are recognized lexically as identifiers
matching the convention placeholderN.  True when the name is the word
placeholder followed by at least one digit. -/
def isPlaceholderName (s : String) : Bool :=
  match dropPre "placeholder".data s.data with
  | some rest => !rest.isEmpty && rest.all Char.isDigit
  | none => false

/-- Environment key of a statement placeholder (the tests show keys such
as statement1). -/
def statementKey (i : Nat) : String := "statement" ++ toString i

/-- Environment key of an expression placeholder (the tests show keys
such as expression2). -/
def expressionKey (i : Nat) : String := "expression" ++ toString i

/-- A bound value in a binding environment: generic placeholders bind an
identifier name, statement and expression placeholders bind a subtree. -/
inductive Binding where
  | name (s : String)
  | node (n : Node)

/-- Deep equality of bound values, as used by the matcher's placeholder
consistency re-check. -/
def bindingBEq : Binding → Binding → Bool
  | .name a, b => match b with
      | .name b2 => streq a b2
      | _ => false
  | .node a, b => match b with
      | .node b2 => nodeBEq a b2
      | _ => false

theorem bindingBEq_iff (a b : Binding) : bindingBEq a b = true ↔ a = b := by
  cases a <;> cases b <;> simp [bindingBEq, streq_iff, nodeBEq_iff]

/-- A binding environment: placeholder keys mapped to bound values. -/
abbrev Env := List (String × Binding)

/-- Key lookup in a binding environment. -/
def envLookup (env : Env) (k : String) : Option Binding :=
  match env with
  | [] => none
  | (k2, v) :: rest => if streq k k2 then some v else envLookup rest k

/-- Bind a key, or re-check an existing binding for deep equality; an
inconsistent rebinding fails the match. -/
def bindKey (k : String) (v : Binding) (env : Env) : Option Env :=
  match envLookup env k with
  | some w => if bindingBEq w v then some env else none
  | none => some ((k, v) :: env)

/-- Modelled from the spec: statement kinds (lib/patterns.js is not
under src).  True for members of the compound/control-flow and atomic
statement families of section 4.2. -/
def isStatement : Node → Bool
  | .expressionStatement _ => true
  | .ifStatement _ _ _ => true
  | .whileStatement _ _ => true
  | .doWhileStatement _ _ => true
  | .forStatement _ _ _ _ => true
  | .forInStatement _ _ _ => true
  | .forOfStatement _ _ _ => true
  | .functionDeclaration _ _ _ => true
  | .returnStatement _ => true
  | .blockStatement _ => true
  | .variableDeclaration _ _ => true
  | .switchStatement _ _ => true
  | .switchCase _ _ => false
  | .tryStatement _ _ _ => true
  | .labeledStatement _ _ => true
  | .breakStatement => true
  | .continueStatement => true
  | .throwStatement _ => true
  | _ => false

/-- Modelled from the spec: expression kinds (lib/patterns.js is not
under src). -/
def isExpression : Node → Bool
  | .literal _ => true
  | .identifier _ => true
  | .unaryExpression _ _ => true
  | .binaryExpression _ _ _ => true
  | .logicalExpression _ _ _ => true
  | .assignmentExpression _ _ _ => true
  | .conditionalExpression _ _ _ => true
  | .sequenceExpression _ => true
  | .callExpression _ _ => true
  | .memberExpression _ _ _ => true
  | .objectExpression _ => true
  | _ => false

/-- Modelled from the spec: declaration forms accepted by an expression
placeholder carrying the orDeclaration modifier (the shipped test binds
a let declaration in a for-of head). -/
def isDeclaration : Node → Bool
  | .variableDeclaration _ _ => true
  | _ => false

/-- Modelled from the spec: the multiLine statement-kind classification
of section 4.2 (lib/patterns.js is not under src).  True for the
compound/control-flow family (conditional, loop forms, block, switch,
try, labeled, nested function), false for the atomic family
(expression-statement, declaration, return/throw/break/continue). -/
def isMultiLine : Node → Bool
  | .ifStatement _ _ _ => true
  | .whileStatement _ _ => true
  | .doWhileStatement _ _ => true
  | .forStatement _ _ _ _ => true
  | .forInStatement _ _ _ => true
  | .forOfStatement _ _ _ => true
  | .blockStatement _ => true
  | .switchStatement _ _ => true
  | .tryStatement _ _ _ => true
  | .labeledStatement _ _ => true
  | .functionDeclaration _ _ _ => true
  | _ => false

mutual
/-- Modelled from the spec: the structural matcher of lib/patterns.js
(not under src; section 4.2 of the spec and the pattern.matches tests in
src pin its behaviour).  A synchronized recursive descent over pattern
and node: placeholders bind or re-check, any other pattern node requires
the same kind, equal scalar fields and matching children; any mismatch
yields none. -/
def matchNode : Node → Node → Env → Option Env
  | .identifier s, n, env =>
      if isPlaceholderName s then
        match n with
        | .identifier t => bindKey s (.name t) env
        | _ => none
      else
        match n with
        | .identifier t => if streq s t then some env else none
        | _ => none
  | .statementPlaceholder i multi, n, env =>
      if isStatement n && (!multi || isMultiLine n) then
        bindKey (statementKey i) (.node n) env
      else none
  | .expressionPlaceholder i allowDecl, n, env =>
      if isExpression n || (allowDecl && isDeclaration n) then
        bindKey (expressionKey i) (.node n) env
      else none
  | .literal v, n, env =>
      match n with
      | .literal w => if litBEq v w then some env else none
      | _ => none
  | .unaryExpression op a, n, env =>
      match n with
      | .unaryExpression op2 a2 => if streq op op2 then matchNode a a2 env else none
      | _ => none
  | .binaryExpression op l r, n, env =>
      match n with
      | .binaryExpression op2 l2 r2 =>
          if streq op op2 then do matchNode r r2 (← matchNode l l2 env) else none
      | _ => none
  | .logicalExpression op l r, n, env =>
      match n with
      | .logicalExpression op2 l2 r2 =>
          if streq op op2 then do matchNode r r2 (← matchNode l l2 env) else none
      | _ => none
  | .assignmentExpression op l r, n, env =>
      match n with
      | .assignmentExpression op2 l2 r2 =>
          if streq op op2 then do matchNode r r2 (← matchNode l l2 env) else none
      | _ => none
  | .conditionalExpression t c a, n, env =>
      match n with
      | .conditionalExpression t2 c2 a2 => do
          matchNode a a2 (← matchNode c c2 (← matchNode t t2 env))
      | _ => none
  | .sequenceExpression es, n, env =>
      match n with
      | .sequenceExpression es2 => matchList es es2 env
      | _ => none
  | .callExpression c args, n, env =>
      match n with
      | .callExpression c2 args2 => do matchList args args2 (← matchNode c c2 env)
      | _ => none
  | .memberExpression o p cm, n, env =>
      match n with
      | .memberExpression o2 p2 cm2 =>
          if cm == cm2 then do matchNode p p2 (← matchNode o o2 env) else none
      | _ => none
  | .objectExpression ps, n, env =>
      match n with
      | .objectExpression ps2 => matchList ps ps2 env
      | _ => none
  | .property k v, n, env =>
      match n with
      | .property k2 v2 => do matchNode v v2 (← matchNode k k2 env)
      | _ => none
  | .expressionStatement e, n, env =>
      match n with
      | .expressionStatement e2 => matchNode e e2 env
      | _ => none
  | .ifStatement t c a, n, env =>
      match n with
      | .ifStatement t2 c2 a2 => do matchOpt a a2 (← matchNode c c2 (← matchNode t t2 env))
      | _ => none
  | .whileStatement t b, n, env =>
      match n with
      | .whileStatement t2 b2 => do matchNode b b2 (← matchNode t t2 env)
      | _ => none
  | .doWhileStatement b t, n, env =>
      match n with
      | .doWhileStatement b2 t2 => do matchNode t t2 (← matchNode b b2 env)
      | _ => none
  | .forStatement i t u b, n, env =>
      match n with
      | .forStatement i2 t2 u2 b2 => do
          matchNode b b2 (← matchOpt u u2 (← matchOpt t t2 (← matchOpt i i2 env)))
      | _ => none
  | .forInStatement l r b, n, env =>
      match n with
      | .forInStatement l2 r2 b2 => do matchNode b b2 (← matchNode r r2 (← matchNode l l2 env))
      | _ => none
  | .forOfStatement l r b, n, env =>
      match n with
      | .forOfStatement l2 r2 b2 => do matchNode b b2 (← matchNode r r2 (← matchNode l l2 env))
      | _ => none
  | .functionDeclaration i ps b, n, env =>
      match n with
      | .functionDeclaration i2 ps2 b2 => do matchNode b b2 (← matchList ps ps2 (← matchNode i i2 env))
      | _ => none
  | .returnStatement a, n, env =>
      match n with
      | .returnStatement a2 => matchOpt a a2 env
      | _ => none
  | .blockStatement b, n, env =>
      match n with
      | .blockStatement b2 => matchList b b2 env
      | _ => none
  | .program b, n, env =>
      match n with
      | .program b2 => matchList b b2 env
      | _ => none
  | .variableDeclaration k ds, n, env =>
      match n with
      | .variableDeclaration k2 ds2 => if streq k k2 then matchList ds ds2 env else none
      | _ => none
  | .variableDeclarator i v, n, env =>
      match n with
      | .variableDeclarator i2 v2 => do matchOpt v v2 (← matchNode i i2 env)
      | _ => none
  | .switchStatement d cs, n, env =>
      match n with
      | .switchStatement d2 cs2 => do matchList cs cs2 (← matchNode d d2 env)
      | _ => none
  | .switchCase t c, n, env =>
      match n with
      | .switchCase t2 c2 => do matchList c c2 (← matchOpt t t2 env)
      | _ => none
  | .tryStatement b h f, n, env =>
      match n with
      | .tryStatement b2 h2 f2 => do matchOpt f f2 (← matchOpt h h2 (← matchNode b b2 env))
      | _ => none
  | .labeledStatement l b, n, env =>
      match n with
      | .labeledStatement l2 b2 => do matchNode b b2 (← matchNode l l2 env)
      | _ => none
  | .breakStatement, n, env =>
      match n with
      | .breakStatement => some env
      | _ => none
  | .continueStatement, n, env =>
      match n with
      | .continueStatement => some env
      | _ => none
  | .throwStatement a, n, env =>
      match n with
      | .throwStatement a2 => matchNode a a2 env
      | _ => none

def matchList : List Node → List Node → Env → Option Env
  | [], ns, env => match ns with
      | [] => some env
      | _ => none
  | p :: ps, ns, env => match ns with
      | n :: ns2 => do matchList ps ns2 (← matchNode p n env)
      | _ => none

def matchOpt : Option Node → Option Node → Env → Option Env
  | none, no, env => match no with
      | none => some env
      | _ => none
  | some p, no, env => match no with
      | some n => matchNode p n env
      | _ => none
end

mutual
/-- Modelled from the spec: the template filler of lib/patterns.js (not
under src; section 4.3 of the spec and the patterns.fill tests in src
pin its behaviour).  Produces a copy of the template with every
placeholder replaced by its bound value, and fails with a
missing-binding error when a referenced key is absent. -/
def fillNode : Node → Env → Except String Node
  | .identifier s, env =>
      if isPlaceholderName s then
        match envLookup env s with
        | some (.name t) => .ok (.identifier t)
        | _ => .error s
      else .ok (.identifier s)
  | .statementPlaceholder i _, env =>
      match envLookup env (statementKey i) with
      | some (.node m) => .ok m
      | _ => .error (statementKey i)
  | .expressionPlaceholder i _, env =>
      match envLookup env (expressionKey i) with
      | some (.node m) => .ok m
      | _ => .error (expressionKey i)
  | .literal v, _ => .ok (.literal v)
  | .unaryExpression op a, env => do .ok (.unaryExpression op (← fillNode a env))
  | .binaryExpression op l r, env => do
      .ok (.binaryExpression op (← fillNode l env) (← fillNode r env))
  | .logicalExpression op l r, env => do
      .ok (.logicalExpression op (← fillNode l env) (← fillNode r env))
  | .assignmentExpression op l r, env => do
      .ok (.assignmentExpression op (← fillNode l env) (← fillNode r env))
  | .conditionalExpression t c a, env => do
      .ok (.conditionalExpression (← fillNode t env) (← fillNode c env) (← fillNode a env))
  | .sequenceExpression es, env => do .ok (.sequenceExpression (← fillList es env))
  | .callExpression c args, env => do
      .ok (.callExpression (← fillNode c env) (← fillList args env))
  | .memberExpression o p cm, env => do
      .ok (.memberExpression (← fillNode o env) (← fillNode p env) cm)
  | .objectExpression ps, env => do .ok (.objectExpression (← fillList ps env))
  | .property k v, env => do .ok (.property (← fillNode k env) (← fillNode v env))
  | .expressionStatement e, env => do .ok (.expressionStatement (← fillNode e env))
  | .ifStatement t c a, env => do
      .ok (.ifStatement (← fillNode t env) (← fillNode c env) (← fillOpt a env))
  | .whileStatement t b, env => do
      .ok (.whileStatement (← fillNode t env) (← fillNode b env))
  | .doWhileStatement b t, env => do
      .ok (.doWhileStatement (← fillNode b env) (← fillNode t env))
  | .forStatement i t u b, env => do
      .ok (.forStatement (← fillOpt i env) (← fillOpt t env) (← fillOpt u env) (← fillNode b env))
  | .forInStatement l r b, env => do
      .ok (.forInStatement (← fillNode l env) (← fillNode r env) (← fillNode b env))
  | .forOfStatement l r b, env => do
      .ok (.forOfStatement (← fillNode l env) (← fillNode r env) (← fillNode b env))
  | .functionDeclaration i ps b, env => do
      .ok (.functionDeclaration (← fillNode i env) (← fillList ps env) (← fillNode b env))
  | .returnStatement a, env => do .ok (.returnStatement (← fillOpt a env))
  | .blockStatement b, env => do .ok (.blockStatement (← fillList b env))
  | .program b, env => do .ok (.program (← fillList b env))
  | .variableDeclaration k ds, env => do .ok (.variableDeclaration k (← fillList ds env))
  | .variableDeclarator i v, env => do
      .ok (.variableDeclarator (← fillNode i env) (← fillOpt v env))
  | .switchStatement d cs, env => do
      .ok (.switchStatement (← fillNode d env) (← fillList cs env))
  | .switchCase t c, env => do .ok (.switchCase (← fillOpt t env) (← fillList c env))
  | .tryStatement b h f, env => do
      .ok (.tryStatement (← fillNode b env) (← fillOpt h env) (← fillOpt f env))
  | .labeledStatement l b, env => do
      .ok (.labeledStatement (← fillNode l env) (← fillNode b env))
  | .breakStatement, _ => .ok .breakStatement
  | .continueStatement, _ => .ok .continueStatement
  | .throwStatement a, env => do .ok (.throwStatement (← fillNode a env))

def fillList : List Node → Env → Except String (List Node)
  | [], _ => .ok []
  | t :: ts, env => do .ok ((← fillNode t env) :: (← fillList ts env))

def fillOpt : Option Node → Env → Except String (Option Node)
  | none, _ => .ok none
  | some t, env => do .ok (some (← fillNode t env))
end

mutual
/-- Placeholder keys referenced by a template, in template order. -/
def refs : Node → List String
  | .identifier s => if isPlaceholderName s then [s] else []
  | .statementPlaceholder i _ => [statementKey i]
  | .expressionPlaceholder i _ => [expressionKey i]
  | .literal _ => []
  | .unaryExpression _ a => refs a
  | .binaryExpression _ l r => refs l ++ refs r
  | .logicalExpression _ l r => refs l ++ refs r
  | .assignmentExpression _ l r => refs l ++ refs r
  | .conditionalExpression t c a => refs t ++ refs c ++ refs a
  | .sequenceExpression es => refsL es
  | .callExpression c args => refs c ++ refsL args
  | .memberExpression o p _ => refs o ++ refs p
  | .objectExpression ps => refsL ps
  | .property k v => refs k ++ refs v
  | .expressionStatement e => refs e
  | .ifStatement t c a => refs t ++ refs c ++ refsO a
  | .whileStatement t b => refs t ++ refs b
  | .doWhileStatement b t => refs b ++ refs t
  | .forStatement i t u b => refsO i ++ refsO t ++ refsO u ++ refs b
  | .forInStatement l r b => refs l ++ refs r ++ refs b
  | .forOfStatement l r b => refs l ++ refs r ++ refs b
  | .functionDeclaration i ps b => refs i ++ refsL ps ++ refs b
  | .returnStatement a => refsO a
  | .blockStatement b => refsL b
  | .program b => refsL b
  | .variableDeclaration _ ds => refsL ds
  | .variableDeclarator i v => refs i ++ refsO v
  | .switchStatement d cs => refs d ++ refsL cs
  | .switchCase t c => refsO t ++ refsL c
  | .tryStatement b h f => refs b ++ refsO h ++ refsO f
  | .labeledStatement l b => refs l ++ refs b
  | .breakStatement => []
  | .continueStatement => []
  | .throwStatement a => refs a

def refsL : List Node → List String
  | [] => []
  | t :: ts => refs t ++ refsL ts

def refsO : Option Node → List String
  | none => []
  | some t => refs t
end

/-- Pattern of rule 1 of rewriteCode.js: the snippet !1. -/
def pat1 : Node := .unaryExpression "!" (.literal (.num 1))

/-- Replacement of rule 1: the snippet false. -/
def rep1 : Node := .literal (.bool false)

/-- Pattern of rule 2: the snippet !0. -/
def pat2 : Node := .unaryExpression "!" (.literal (.num 0))

/-- Replacement of rule 2: the snippet true. -/
def rep2 : Node := .literal (.bool true)

/-- Pattern of rule 3: the snippet void 0. -/
def pat3 : Node := .unaryExpression "void" (.literal (.num 0))

/-- Replacement of rule 3: the snippet undefined. -/
def rep3 : Node := .identifier "undefined"

/-- Pattern of rule 4: expression1 && expression2 as a statement. -/
def pat4 : Node :=
  .expressionStatement (.logicalExpression "&&" (.expressionPlaceholder 1 false)
    (.expressionPlaceholder 2 false))

/-- Replacement of rule 4: if (expression1) expression2. -/
def rep4 : Node :=
  .ifStatement (.expressionPlaceholder 1 false)
    (.expressionStatement (.expressionPlaceholder 2 false)) none

/-- Pattern of rule 5: expression1 or-or expression2 as a statement. -/
def pat5 : Node :=
  .expressionStatement (.logicalExpression "||" (.expressionPlaceholder 1 false)
    (.expressionPlaceholder 2 false))

/-- Replacement of rule 5: if (!expression1) expression2. -/
def rep5 : Node :=
  .ifStatement (.unaryExpression "!" (.expressionPlaceholder 1 false))
    (.expressionStatement (.expressionPlaceholder 2 false)) none

/-- Pattern of rule 6: a conditional expression as a statement. -/
def pat6 : Node :=
  .expressionStatement (.conditionalExpression (.expressionPlaceholder 1 false)
    (.expressionPlaceholder 2 false) (.expressionPlaceholder 3 false))

/-- Replacement of rule 6: if (expression1) expression2; else expression3. -/
def rep6 : Node :=
  .ifStatement (.expressionPlaceholder 1 false)
    (.expressionStatement (.expressionPlaceholder 2 false))
    (some (.expressionStatement (.expressionPlaceholder 3 false)))

/-- Pattern of rule 7: if (expression1) statement1.multiLine. -/
def pat7 : Node :=
  .ifStatement (.expressionPlaceholder 1 false) (.statementPlaceholder 1 true) none

/-- Replacement of rule 7: if (expression1) with the body braced. -/
def rep7 : Node :=
  .ifStatement (.expressionPlaceholder 1 false)
    (.blockStatement [.statementPlaceholder 1 false]) none

/-- Pattern of rule 8: while (expression1) statement1.multiLine. -/
def pat8 : Node :=
  .whileStatement (.expressionPlaceholder 1 false) (.statementPlaceholder 1 true)

/-- Replacement of rule 8: while (expression1) with the body braced. -/
def rep8 : Node :=
  .whileStatement (.expressionPlaceholder 1 false)
    (.blockStatement [.statementPlaceholder 1 false])

/-- Pattern of rule 9: do statement1.multiLine; while (expression1). -/
def pat9 : Node :=
  .doWhileStatement (.statementPlaceholder 1 true) (.expressionPlaceholder 1 false)

/-- Replacement of rule 9: the do-while with the body braced. -/
def rep9 : Node :=
  .doWhileStatement (.blockStatement [.statementPlaceholder 1 false])
    (.expressionPlaceholder 1 false)

/-- Pattern of rule 10: the three-clause for with orDeclaration head and
a multiLine body. -/
def pat10 : Node :=
  .forStatement (some (.expressionPlaceholder 1 true))
    (some (.expressionPlaceholder 2 false)) (some (.expressionPlaceholder 3 false))
    (.statementPlaceholder 1 true)

/-- Replacement of rule 10: the same for with the body braced. -/
def rep10 : Node :=
  .forStatement (some (.expressionPlaceholder 1 false))
    (some (.expressionPlaceholder 2 false)) (some (.expressionPlaceholder 3 false))
    (.blockStatement [.statementPlaceholder 1 false])

/-- Pattern of rule 11: for-in with orDeclaration head and a multiLine
body. -/
def pat11 : Node :=
  .forInStatement (.expressionPlaceholder 1 true) (.expressionPlaceholder 2 false)
    (.statementPlaceholder 1 true)

/-- Replacement of rule 11: the same for-in with the body braced. -/
def rep11 : Node :=
  .forInStatement (.expressionPlaceholder 1 false) (.expressionPlaceholder 2 false)
    (.blockStatement [.statementPlaceholder 1 false])

/-- Pattern of rule 12: for-of with orDeclaration head and a multiLine
body. -/
def pat12 : Node :=
  .forOfStatement (.expressionPlaceholder 1 true) (.expressionPlaceholder 2 false)
    (.statementPlaceholder 1 true)

/-- Replacement of rule 12: the same for-of with the body braced. -/
def rep12 : Node :=
  .forOfStatement (.expressionPlaceholder 1 false) (.expressionPlaceholder 2 false)
    (.blockStatement [.statementPlaceholder 1 false])

/-- Pattern of rule 13: the module-interop helper shape, with generic
placeholders for the function and parameter names. -/
def pat13 : Node :=
  .functionDeclaration (.identifier "placeholder1") [.identifier "placeholder2"]
    (.blockStatement [.returnStatement (some (.conditionalExpression
      (.logicalExpression "&&" (.identifier "placeholder2")
        (.memberExpression (.identifier "placeholder2") (.identifier "__esModule") false))
      (.identifier "placeholder2")
      (.objectExpression [.property (.identifier "default") (.identifier "placeholder2")])))])

/-- Replacement of rule 13: the canonically named interop helper. -/
def rep13 : Node :=
  .functionDeclaration (.identifier "_interopRequireDefault") [.identifier "obj"]
    (.blockStatement [.returnStatement (some (.conditionalExpression
      (.logicalExpression "&&" (.identifier "obj")
        (.memberExpression (.identifier "obj") (.identifier "__esModule") false))
      (.identifier "obj")
      (.objectExpression [.property (.identifier "default") (.identifier "obj")])))])

/-- The rewritePatterns table of rewriteCode.js, in source order. -/
def rules : List (Node × Node) :=
  [(pat1, rep1), (pat2, rep2), (pat3, rep3), (pat4, rep4), (pat5, rep5), (pat6, rep6),
   (pat7, rep7), (pat8, rep8), (pat9, rep9), (pat10, rep10), (pat11, rep11),
   (pat12, rep12), (pat13, rep13)]

/-- Scan a rule table in order and return the first successful rewrite:
rule matching exactly as in the enter hook of rewriteCode.js. -/
def applyRules : List (Node × Node) → Node → Option Node
  | [], _ => none
  | (p, r) :: rest, n =>
      match matchNode p n [] with
      | some env => (fillNode r env).toOption
      | none => applyRules rest n

/-- True for an expression statement wrapping a comma-sequence, the
shape the enter hook of rewriteCode.js intercepts before rule
matching. -/
def isSeqES : Node → Bool
  | .expressionStatement e => match e with
      | .sequenceExpression _ => true
      | _ => false
  | _ => false

/-- The enter hook of rewriteCode.js: a comma-sequence statement becomes
a transient Program container of one expression statement per element;
otherwise the first matching rule's filled replacement is returned, or
the node itself when no rule matches.  The scope-collision rename of the
function-declaration special case only changes identifier name strings
and is modelled separately by `renameLoop`. -/
def enter (n : Node) : Node :=
  match n with
  | .expressionStatement (.sequenceExpression es) =>
      .program (es.map .expressionStatement)
  | n => (applyRules rules n).getD n

/-- Direct children of a node, in field order. -/
def nodeChildren : Node → List Node
  | .literal _ => []
  | .identifier _ => []
  | .unaryExpression _ a => [a]
  | .binaryExpression _ l r => [l, r]
  | .logicalExpression _ l r => [l, r]
  | .assignmentExpression _ l r => [l, r]
  | .conditionalExpression t c a => [t, c, a]
  | .sequenceExpression es => es
  | .callExpression c args => c :: args
  | .memberExpression o p _ => [o, p]
  | .objectExpression ps => ps
  | .property k v => [k, v]
  | .expressionStatement e => [e]
  | .ifStatement t c a => [t, c] ++ a.toList
  | .whileStatement t b => [t, b]
  | .doWhileStatement b t => [b, t]
  | .forStatement i t u b => i.toList ++ t.toList ++ u.toList ++ [b]
  | .forInStatement l r b => [l, r, b]
  | .forOfStatement l r b => [l, r, b]
  | .functionDeclaration i ps b => i :: ps ++ [b]
  | .returnStatement a => a.toList
  | .blockStatement b => b
  | .program b => b
  | .variableDeclaration _ ds => ds
  | .variableDeclarator i v => i :: v.toList
  | .switchStatement d cs => d :: cs
  | .switchCase t c => t.toList ++ c
  | .tryStatement b h f => b :: (h.toList ++ f.toList)
  | .labeledStatement l b => [l, b]
  | .breakStatement => []
  | .continueStatement => []
  | .throwStatement a => [a]
  | .statementPlaceholder _ _ => []
  | .expressionPlaceholder _ _ => []

/-- Rebuild a node with a function applied to each direct child; the
traversal applies the visit recursively through this. -/
def mapChildren (f : Node → Node) : Node → Node
  | .literal v => .literal v
  | .identifier s => .identifier s
  | .unaryExpression op a => .unaryExpression op (f a)
  | .binaryExpression op l r => .binaryExpression op (f l) (f r)
  | .logicalExpression op l r => .logicalExpression op (f l) (f r)
  | .assignmentExpression op l r => .assignmentExpression op (f l) (f r)
  | .conditionalExpression t c a => .conditionalExpression (f t) (f c) (f a)
  | .sequenceExpression es => .sequenceExpression (es.map f)
  | .callExpression c args => .callExpression (f c) (args.map f)
  | .memberExpression o p cm => .memberExpression (f o) (f p) cm
  | .objectExpression ps => .objectExpression (ps.map f)
  | .property k v => .property (f k) (f v)
  | .expressionStatement e => .expressionStatement (f e)
  | .ifStatement t c a => .ifStatement (f t) (f c) (a.map f)
  | .whileStatement t b => .whileStatement (f t) (f b)
  | .doWhileStatement b t => .doWhileStatement (f b) (f t)
  | .forStatement i t u b => .forStatement (i.map f) (t.map f) (u.map f) (f b)
  | .forInStatement l r b => .forInStatement (f l) (f r) (f b)
  | .forOfStatement l r b => .forOfStatement (f l) (f r) (f b)
  | .functionDeclaration i ps b => .functionDeclaration (f i) (ps.map f) (f b)
  | .returnStatement a => .returnStatement (a.map f)
  | .blockStatement b => .blockStatement (b.map f)
  | .program b => .program (b.map f)
  | .variableDeclaration k ds => .variableDeclaration k (ds.map f)
  | .variableDeclarator i v => .variableDeclarator (f i) (v.map f)
  | .switchStatement d cs => .switchStatement (f d) (cs.map f)
  | .switchCase t c => .switchCase (t.map f) (c.map f)
  | .tryStatement b h f2 => .tryStatement (f b) (h.map f) (f2.map f)
  | .labeledStatement l b => .labeledStatement (f l) (f b)
  | .breakStatement => .breakStatement
  | .continueStatement => .continueStatement
  | .throwStatement a => .throwStatement (f a)
  | .statementPlaceholder i m => .statementPlaceholder i m
  | .expressionPlaceholder i d => .expressionPlaceholder i d

/-- True for the two node kinds whose body arrays the leave hook
splices, and below which a transient Program child survives its own
leave unconverted. -/
def isBlockLike : Node → Bool
  | .blockStatement _ => true
  | .program _ => true
  | _ => false

mutual
/-- Contribution of one statement-array element to the spliced array of
the leave hook of rewriteCode.js: a transient Program container is
replaced by its (recursively spliced) body, any other node kept.  The
recursion models the index bookkeeping that restarts at the splice
point. -/
def spliceOne : Node → List Node
  | .program b => spliceL b
  | n => [n]

def spliceL : List Node → List Node
  | [] => []
  | c :: rest => spliceOne c ++ spliceL rest
end

/-- The leave hook of rewriteCode.js: a transient Program whose parent
is not block-like is coerced into a genuine BlockStatement; then a
block-like node has transient Program children spliced into its body.
The pb flag tells whether the parent node is block-like. -/
def leaveStep (pb : Bool) (n : Node) : Node :=
  match (match n with
         | .program b => if pb then Node.program b else Node.blockStatement b
         | n => n) with
  | .program b => .program (spliceL b)
  | .blockStatement b => .blockStatement (spliceL b)
  | m => m

/-- One estraverse.replace traversal of rewriteCode.js, fuelled: apply
the enter hook, recurse into the children of the replacement (the
traversal continues into a replacement's subtree), then apply the leave
hook.  The fuel only bounds the recursion depth; `rewrite` supplies a
sufficient amount. -/
def visitF : Nat → Bool → Node → Node
  | 0, _, n => n
  | fuel + 1, pb, n =>
      leaveStep pb (mapChildren (visitF fuel (isBlockLike (enter n))) (enter n))

/-- Visit a node with exactly enough fuel for its own size. -/
def visit (pb : Bool) (n : Node) : Node := visitF (size n) pb n

/-- The default export rewriteCode(ast): one full traversal of the tree.
The root is visited with a block-like parent flag, matching estraverse's
replace, whose leave hook never coerces the root Program (the claims
below only concern the tree strictly below the root). -/
def rewrite (t : Node) : Node := visit true t



/-- Environment extension. -/
def envExt (a b : Env) : Prop := ∀ k v, envLookup a k = some v → envLookup b k = some v

theorem envExt_refl (a : Env) : envExt a a := fun _ _ h => h

theorem envExt_trans {a b c : Env} (h1 : envExt a b) (h2 : envExt b c) : envExt a c :=
  fun k v h => h2 k v (h1 k v h)

theorem bindKey_ext {k : String} {v : Binding} {env env' : Env}
    (h : bindKey k v env = some env') : envExt env env' := by
  unfold bindKey at h
  cases hl : envLookup env k with
  | some w =>
    rw [hl] at h
    by_cases hb : bindingBEq w v = true
    · simp [hb] at h; cases h; exact envExt_refl _
    · simp [hb] at h
  | none =>
    rw [hl] at h
    simp at h
    cases h
    intro k2 v2 h2
    simp only [envLookup]
    by_cases hs : streq k2 k = true
    · rw [(streq_iff k2 k).1 hs] at h2; rw [h2] at hl; cases hl
    · simp [hs, h2]

theorem bindKey_lookup {k : String} {v : Binding} {env env' : Env}
    (h : bindKey k v env = some env') : envLookup env' k = some v := by
  unfold bindKey at h
  cases hl : envLookup env k with
  | some w =>
    rw [hl] at h
    by_cases hb : bindingBEq w v = true
    · simp [hb] at h; cases h; rw [hl, (bindingBEq_iff w v).1 hb]
    · simp [hb] at h
  | none =>
    rw [hl] at h
    simp at h
    cases h
    simp [envLookup, streq_refl]

/-- Shape forced on the candidate by a successful match: placeholders
accept anything, any other pattern kind forces the same node kind. -/
def sameShape (p n : Node) : Prop :=
  match p with
  | .identifier _ => ∃ t, n = .identifier t
  | .statementPlaceholder _ _ => True
  | .expressionPlaceholder _ _ => True
  | .literal _ => ∃ w, n = .literal w
  | .unaryExpression _ _ => ∃ x1 x2, n = .unaryExpression x1 x2
  | .binaryExpression _ _ _ => ∃ x1 x2 x3, n = .binaryExpression x1 x2 x3
  | .logicalExpression _ _ _ => ∃ x1 x2 x3, n = .logicalExpression x1 x2 x3
  | .assignmentExpression _ _ _ => ∃ x1 x2 x3, n = .assignmentExpression x1 x2 x3
  | .conditionalExpression _ _ _ => ∃ x1 x2 x3, n = .conditionalExpression x1 x2 x3
  | .sequenceExpression _ => ∃ x1, n = .sequenceExpression x1
  | .callExpression _ _ => ∃ x1 x2, n = .callExpression x1 x2
  | .memberExpression _ _ _ => ∃ x1 x2 x3, n = .memberExpression x1 x2 x3
  | .objectExpression _ => ∃ x1, n = .objectExpression x1
  | .property _ _ => ∃ x1 x2, n = .property x1 x2
  | .expressionStatement _ => ∃ x1, n = .expressionStatement x1
  | .ifStatement _ _ _ => ∃ x1 x2 x3, n = .ifStatement x1 x2 x3
  | .whileStatement _ _ => ∃ x1 x2, n = .whileStatement x1 x2
  | .doWhileStatement _ _ => ∃ x1 x2, n = .doWhileStatement x1 x2
  | .forStatement _ _ _ _ => ∃ x1 x2 x3 x4, n = .forStatement x1 x2 x3 x4
  | .forInStatement _ _ _ => ∃ x1 x2 x3, n = .forInStatement x1 x2 x3
  | .forOfStatement _ _ _ => ∃ x1 x2 x3, n = .forOfStatement x1 x2 x3
  | .functionDeclaration _ _ _ => ∃ x1 x2 x3, n = .functionDeclaration x1 x2 x3
  | .returnStatement _ => ∃ x1, n = .returnStatement x1
  | .blockStatement _ => ∃ x1, n = .blockStatement x1
  | .program _ => ∃ x1, n = .program x1
  | .variableDeclaration _ _ => ∃ x1 x2, n = .variableDeclaration x1 x2
  | .variableDeclarator _ _ => ∃ x1 x2, n = .variableDeclarator x1 x2
  | .switchStatement _ _ => ∃ x1 x2, n = .switchStatement x1 x2
  | .switchCase _ _ => ∃ x1 x2, n = .switchCase x1 x2
  | .tryStatement _ _ _ => ∃ x1 x2 x3, n = .tryStatement x1 x2 x3
  | .labeledStatement _ _ => ∃ x1 x2, n = .labeledStatement x1 x2
  | .breakStatement => n = .breakStatement
  | .continueStatement => n = .continueStatement
  | .throwStatement _ => ∃ x1, n = .throwStatement x1

set_option maxHeartbeats 2000000 in
theorem matchNode_shape {p n : Node} {env env' : Env}
    (hm : matchNode p n env = some env') : sameShape p n := by
  cases p <;> cases n <;>
    first
      | (simp only [matchNode] at hm; exact Option.noConfusion hm)
      | (simp only [matchNode] at hm; split at hm <;> exact Option.noConfusion hm)
      | exact trivial
      | exact rfl
      | exact ⟨_, rfl⟩
      | exact ⟨_, _, rfl⟩
      | exact ⟨_, _, _, rfl⟩
      | exact ⟨_, _, _, _, rfl⟩

@[simp] theorem bindOk {A B : Type} (a : A) (f : A → Except String B) :
    (Except.ok a >>= f : Except String B) = f a := rfl

set_option maxHeartbeats 4000000 in
theorem match_roundTrip_all :
    (∀ p n env, ∀ env', matchNode p n env = some env' →
      envExt env env' ∧ ∀ env2, envExt env' env2 → fillNode p env2 = .ok n) ∧
    ((∀ po no env, ∀ env', matchOpt po no env = some env' →
      envExt env env' ∧ ∀ env2, envExt env' env2 → fillOpt po env2 = .ok no) ∧
    (∀ ps ns env, ∀ env', matchList ps ns env = some env' →
      envExt env env' ∧ ∀ env2, envExt env' env2 → fillList ps env2 = .ok ns)) := by
  apply matchNode.mutual_induct
    (fun p n env => ∀ env', matchNode p n env = some env' →
      envExt env env' ∧ ∀ env2, envExt env' env2 → fillNode p env2 = .ok n)
    (fun po no env => ∀ env', matchOpt po no env = some env' →
      envExt env env' ∧ ∀ env2, envExt env' env2 → fillOpt po env2 = .ok no)
    (fun ps ns env => ∀ env', matchList ps ns env = some env' →
      envExt env env' ∧ ∀ env2, envExt env' env2 → fillList ps env2 = .ok ns)
  all_goals intros
  all_goals rename_i env9 hm
  -- negative cases whose condition hypothesis reduces the match to none
  all_goals try (simp_all [matchNode, matchList, matchOpt]; done)
  -- catch-all cases: the candidate cannot have the pattern's kind
  all_goals try
    (exfalso;
     have hs := matchNode_shape hm;
     simp only [sameShape] at hs;
     first
       | (obtain ⟨x1, rfl⟩ := hs; simp_all; done)
       | (obtain ⟨x1, x2, rfl⟩ := hs; simp_all; done)
       | (obtain ⟨x1, x2, x3, rfl⟩ := hs; simp_all; done)
       | (obtain ⟨x1, x2, x3, x4, rfl⟩ := hs; simp_all; done))
  -- generic placeholder bound to an identifier
  all_goals try
    (rename_i hc ht;
     simp [matchNode, hc] at hm;
     refine ⟨bindKey_ext hm, fun e2 he2 => ?_⟩;
     have hl := he2 _ _ (bindKey_lookup hm);
     simp [fillNode, hc, hl]; done)
  -- statement and expression placeholders
  all_goals try
    (rename_i hc;
     simp [matchNode, hc] at hm;
     refine ⟨bindKey_ext hm, fun e2 he2 => ?_⟩;
     have hl := he2 _ _ (bindKey_lookup hm);
     simp [fillNode, hc, hl]; done)
  -- plain identifier, equal names
  all_goals try
    (rename_i hnph ht hseq;
     simp [matchNode, hnph, hseq] at hm;
     subst hm;
     refine ⟨envExt_refl _, fun e2 he2 => ?_⟩;
     have h3 := (streq_iff _ _).1 hseq; subst h3;
     simp [fillNode, hnph]; done)
  -- equal literals
  all_goals try
    (rename_i hlit;
     simp [matchNode, hlit] at hm;
     subst hm;
     refine ⟨envExt_refl _, fun e2 he2 => ?_⟩;
     have h3 := (litBEq_iff _ _).1 hlit; subst h3;
     simp [fillNode]; done)
  -- binding-free leaves
  all_goals try
    (simp [matchNode, matchList, matchOpt] at hm;
     subst hm;
     exact ⟨envExt_refl _, fun e2 he2 => by simp [fillNode, fillList, fillOpt]⟩)
  -- one recursive child, no scalar condition
  all_goals try
    (rename_i ih1;
     simp only [matchNode, matchList, matchOpt] at hm;
     obtain ⟨x1, f1⟩ := ih1 env9 hm;
     refine ⟨x1, fun e2 he2 => ?_⟩;
     simp [fillNode, fillList, fillOpt, f1 e2 he2]; done)
  -- one recursive child under a string-equality condition
  all_goals try
    (rename_i hc ih1;
     simp [matchNode, hc] at hm;
     obtain ⟨x1, f1⟩ := ih1 env9 hm;
     refine ⟨x1, fun e2 he2 => ?_⟩;
     have h3 := (streq_iff _ _).1 hc; subst h3;
     simp [fillNode, fillList, fillOpt, f1 e2 he2]; done)
  -- two chained recursive children, no scalar condition
  all_goals try
    (rename_i ih1 ih2;
     simp [matchNode, matchList, matchOpt, Option.bind_eq_some] at hm;
     obtain ⟨m1, h1, h2⟩ := hm;
     obtain ⟨x1, f1⟩ := ih1 _ h1;
     obtain ⟨x2, f2⟩ := ih2 _ _ h2;
     refine ⟨envExt_trans x1 x2, fun e2 he2 => ?_⟩;
     simp [fillNode, fillList, fillOpt, f1 e2 (envExt_trans x2 he2), f2 e2 he2]; done)
  -- two chained recursive children under a string-equality condition
  all_goals try
    (rename_i hc ih1 ih2;
     simp [matchNode, hc, Option.bind_eq_some] at hm;
     obtain ⟨m1, h1, h2⟩ := hm;
     obtain ⟨x1, f1⟩ := ih1 _ h1;
     obtain ⟨x2, f2⟩ := ih2 _ _ h2;
     refine ⟨envExt_trans x1 x2, fun e2 he2 => ?_⟩;
     have h3 := (streq_iff _ _).1 hc; subst h3;
     simp [fillNode, f1 e2 (envExt_trans x2 he2), f2 e2 he2]; done)
  -- member expressions: two children under a boolean-equality condition
  all_goals try
    (rename_i hc ih1 ih2;
     simp [matchNode, hc, Option.bind_eq_some] at hm;
     obtain ⟨m1, h1, h2⟩ := hm;
     obtain ⟨x1, f1⟩ := ih1 _ h1;
     obtain ⟨x2, f2⟩ := ih2 _ _ h2;
     refine ⟨envExt_trans x1 x2, fun e2 he2 => ?_⟩;
     have h3 := eq_of_beq hc; subst h3;
     simp [fillNode, f1 e2 (envExt_trans x2 he2), f2 e2 he2]; done)
  -- three chained recursive children
  all_goals try
    (rename_i ih1 ih2 ih3;
     simp [matchNode, matchList, matchOpt, Option.bind_eq_some] at hm;
     obtain ⟨m1, h1, m2, h2, h3⟩ := hm;
     obtain ⟨x1, f1⟩ := ih1 _ h1;
     obtain ⟨x2, f2⟩ := ih2 _ _ h2;
     obtain ⟨x3, f3⟩ := ih3 _ _ h3;
     refine ⟨envExt_trans x1 (envExt_trans x2 x3), fun e2 he2 => ?_⟩;
     simp [fillNode, fillList, fillOpt, f1 e2 (envExt_trans x2 (envExt_trans x3 he2)),
       f2 e2 (envExt_trans x3 he2), f3 e2 he2]; done)
  -- four chained recursive children
  all_goals
    (rename_i ih1 ih2 ih3 ih4;
     simp [matchNode, matchList, matchOpt, Option.bind_eq_some] at hm;
     obtain ⟨m1, h1, m2, h2, m3, h3, h4⟩ := hm;
     obtain ⟨x1, f1⟩ := ih1 _ h1;
     obtain ⟨x2, f2⟩ := ih2 _ _ h2;
     obtain ⟨x3, f3⟩ := ih3 _ _ h3;
     obtain ⟨x4, f4⟩ := ih4 _ _ h4;
     refine ⟨envExt_trans x1 (envExt_trans x2 (envExt_trans x3 x4)), fun e2 he2 => ?_⟩;
     simp [fillNode, fillList, fillOpt,
       f1 e2 (envExt_trans x2 (envExt_trans x3 (envExt_trans x4 he2))),
       f2 e2 (envExt_trans x3 (envExt_trans x4 he2)),
       f3 e2 (envExt_trans x4 he2), f4 e2 he2])

theorem bindE_ok {A B : Type} (x : Except String A) (f : A → Except String B) (b : B) :
    (x >>= f) = Except.ok b ↔ ∃ a, x = Except.ok a ∧ f a = Except.ok b := by
  cases x <;> simp [Bind.bind, Except.bind]

set_option maxHeartbeats 1000000 in
theorem fill_ok_refs_all :
    (∀ t : Node, ∀ env r, fillNode t env = .ok r →
      ∀ k, k ∈ refs t → (envLookup env k).isSome = true) ∧
    ((∀ po : Option Node, ∀ env r, fillOpt po env = .ok r →
      ∀ k, k ∈ refsO po → (envLookup env k).isSome = true) ∧
    (∀ ts : List Node, ∀ env r, fillList ts env = .ok r →
      ∀ k, k ∈ refsL ts → (envLookup env k).isSome = true)) := by
  apply size.mutual_induct
    (fun t => ∀ env r, fillNode t env = .ok r →
      ∀ k, k ∈ refs t → (envLookup env k).isSome = true)
    (fun po => ∀ env r, fillOpt po env = .ok r →
      ∀ k, k ∈ refsO po → (envLookup env k).isSome = true)
    (fun ts => ∀ env r, fillList ts env = .ok r →
      ∀ k, k ∈ refsL ts → (envLookup env k).isSome = true)
  all_goals intros
  all_goals rename_i env r h k hk
  -- nodes that reference nothing
  all_goals try (simp only [refs, refsO, refsL, List.not_mem_nil] at hk; done)
  -- statement and expression placeholders
  all_goals try
    (simp only [refs, List.mem_singleton] at hk;
     simp only [fillNode] at h;
     rw [← hk] at h;
     cases hl : envLookup env k;
     · rw [hl] at h; simp at h; done
     · simp [hl]; done)
  -- identifiers
  all_goals try
    (simp only [refs] at hk;
     split at hk;
     · simp only [List.mem_singleton] at hk;
       simp only [fillNode] at h;
       rw [← hk] at h;
       cases hl : envLookup env k;
       · rw [hl] at h; simp_all; done
       · simp [hl]; done
     · simp at hk; done)
  -- one recursive child
  all_goals try
    (rename_i ih1;
     simp only [refs, refsO, refsL] at hk;
     simp only [fillNode, fillOpt, fillList, bindE_ok] at h;
     obtain ⟨a1, h1, hr⟩ := h;
     exact ih1 env a1 h1 k hk)
  -- two recursive children
  all_goals try
    (rename_i ih1 ih2;
     simp only [refs, refsO, refsL, List.mem_append] at hk;
     simp only [fillNode, fillOpt, fillList, bindE_ok] at h;
     obtain ⟨a1, h1, a2, h2, hr⟩ := h;
     rcases hk with hk | hk;
     · exact ih1 env a1 h1 k hk
     · exact ih2 env a2 h2 k hk)
  -- three recursive children
  all_goals try
    (rename_i ih1 ih2 ih3;
     simp only [refs, refsO, refsL, List.mem_append, List.append_assoc] at hk;
     simp only [fillNode, fillOpt, fillList, bindE_ok] at h;
     obtain ⟨a1, h1, a2, h2, a3, h3, hr⟩ := h;
     rcases hk with hk | hk | hk;
     · exact ih1 env a1 h1 k hk
     · exact ih2 env a2 h2 k hk
     · exact ih3 env a3 h3 k hk)
  -- four recursive children
  all_goals
    (rename_i ih1 ih2 ih3 ih4;
     simp only [refs, refsO, refsL, List.mem_append, List.append_assoc] at hk;
     simp only [fillNode, fillOpt, fillList, bindE_ok] at h;
     obtain ⟨a1, h1, a2, h2, a3, h3, a4, h4, hr⟩ := h;
     rcases hk with hk | hk | hk | hk;
     · exact ih1 env a1 h1 k hk
     · exact ih2 env a2 h2 k hk
     · exact ih3 env a3 h3 k hk
     · exact ih4 env a4 h4 k hk)

theorem match_fill {p n : Node} {env : Env} (h : matchNode p n [] = some env) :
    fillNode p env = .ok n :=
  (match_roundTrip_all.1 p n [] env h).2 env (envExt_refl env)

@[simp] theorem isPh_p1 : isPlaceholderName "placeholder1" = true := rfl

@[simp] theorem isPh_p2 : isPlaceholderName "placeholder2" = true := rfl

@[simp] theorem isPh_undef : isPlaceholderName "undefined" = false := rfl

@[simp] theorem isPh_interop : isPlaceholderName "_interopRequireDefault" = false := rfl

@[simp] theorem isPh_obj : isPlaceholderName "obj" = false := rfl

@[simp] theorem isPh_esm : isPlaceholderName "__esModule" = false := rfl

@[simp] theorem isPh_default : isPlaceholderName "default" = false := rfl

@[simp] theorem streq_rfl_simp (a : String) : streq a a = true := streq_refl a

@[simp] theorem sk_ek1 : streq (statementKey 1) (expressionKey 1) = false := by decide

@[simp] theorem sk_ek2 : streq (statementKey 1) (expressionKey 2) = false := by decide

@[simp] theorem sk_ek3 : streq (statementKey 1) (expressionKey 3) = false := by decide

@[simp] theorem ek1_sk : streq (expressionKey 1) (statementKey 1) = false := by decide

@[simp] theorem ek2_ek1 : streq (expressionKey 2) (expressionKey 1) = false := by decide

@[simp] theorem ek1_ek2 : streq (expressionKey 1) (expressionKey 2) = false := by decide

@[simp] theorem ek3_ek1 : streq (expressionKey 3) (expressionKey 1) = false := by decide

@[simp] theorem ek1_ek3 : streq (expressionKey 1) (expressionKey 3) = false := by decide

@[simp] theorem ek3_ek2 : streq (expressionKey 3) (expressionKey 2) = false := by decide

@[simp] theorem ek2_ek3 : streq (expressionKey 2) (expressionKey 3) = false := by decide

@[simp] theorem p2_p1 : streq "placeholder2" "placeholder1" = false := by decide

@[simp] theorem p1_p2 : streq "placeholder1" "placeholder2" = false := by decide

/-- Inversion of rule 1: only the node !1 matches, with an empty
environment. -/
theorem inv1 {n : Node} {env : Env} (h : matchNode pat1 n [] = some env) :
    n = .unaryExpression "!" (.literal (.num 1)) ∧ env = [] := by
  have hs := matchNode_shape h
  simp only [pat1, sameShape] at hs
  obtain ⟨op2, a2, rfl⟩ := hs
  simp only [pat1, matchNode] at h
  split at h
  · rename_i hop
    have := (streq_iff _ _).1 hop; subst this
    cases a2 <;> simp only [matchNode] at h <;>
      first
        | exact Option.noConfusion h
        | (split at h
           · rename_i hv; have hv2 := (litBEq_iff _ _).1 hv; cases hv2; cases h; exact ⟨rfl, rfl⟩
           · exact Option.noConfusion h)
  · exact Option.noConfusion h

/-- Inversion of rule 2: only the node !0 matches, with an empty
environment. -/
theorem inv2 {n : Node} {env : Env} (h : matchNode pat2 n [] = some env) :
    n = .unaryExpression "!" (.literal (.num 0)) ∧ env = [] := by
  have hs := matchNode_shape h
  simp only [pat2, sameShape] at hs
  obtain ⟨op2, a2, rfl⟩ := hs
  simp only [pat2, matchNode] at h
  split at h
  · rename_i hop
    have := (streq_iff _ _).1 hop; subst this
    cases a2 <;> simp only [matchNode] at h <;>
      first
        | exact Option.noConfusion h
        | (split at h
           · rename_i hv; have hv2 := (litBEq_iff _ _).1 hv; cases hv2; cases h; exact ⟨rfl, rfl⟩
           · exact Option.noConfusion h)
  · exact Option.noConfusion h

/-- Inversion of rule 3: only the node void 0 matches, with an empty
environment. -/
theorem inv3 {n : Node} {env : Env} (h : matchNode pat3 n [] = some env) :
    n = .unaryExpression "void" (.literal (.num 0)) ∧ env = [] := by
  have hs := matchNode_shape h
  simp only [pat3, sameShape] at hs
  obtain ⟨op2, a2, rfl⟩ := hs
  simp only [pat3, matchNode] at h
  split at h
  · rename_i hop
    have := (streq_iff _ _).1 hop; subst this
    cases a2 <;> simp only [matchNode] at h <;>
      first
        | exact Option.noConfusion h
        | (split at h
           · rename_i hv; have hv2 := (litBEq_iff _ _).1 hv; cases hv2; cases h; exact ⟨rfl, rfl⟩
           · exact Option.noConfusion h)
  · exact Option.noConfusion h

@[simp] theorem bindErr {A B : Type} (e : String) (f : A → Except String B) :
    ((Except.error e : Except String A) >>= f) = Except.error e := rfl

/-- Inversion of rule 4: the matched node is the bound expressions in an
and-chain statement, and the environment holds both bindings. -/
theorem inv4 {n : Node} {env : Env} (h : matchNode pat4 n [] = some env) :
    ∃ e1 e2, n = .expressionStatement (.logicalExpression "&&" e1 e2) ∧
      envLookup env (expressionKey 1) = some (.node e1) ∧
      envLookup env (expressionKey 2) = some (.node e2) := by
  have hf := match_fill h
  simp only [pat4, fillNode] at hf
  cases h1 : envLookup env (expressionKey 1) with
  | none => rw [h1] at hf; simp at hf
  | some b1 =>
    cases b1 with
    | name s9 => rw [h1] at hf; simp at hf
    | node e1 =>
      rw [h1] at hf
      cases h2 : envLookup env (expressionKey 2) with
      | none => rw [h2] at hf; simp at hf
      | some b2 =>
        cases b2 with
        | name s9 => rw [h2] at hf; simp at hf
        | node e2 =>
          rw [h2] at hf
          simp at hf
          refine ⟨e1, e2, hf.symm, ?_, ?_⟩ <;> rfl

/-- Inversion of rule 5: shape of the matched node and the bindings
the match produces. -/
theorem inv5 {n : Node} {env : Env} (h : matchNode pat5 n [] = some env) :
    ∃ e1 e2, n = .expressionStatement (.logicalExpression "||" e1 e2) ∧
      envLookup env (expressionKey 1) = some (.node e1) ∧
      envLookup env (expressionKey 2) = some (.node e2) := by
  have hf := match_fill h
  simp [pat5, fillNode, fillList, fillOpt] at hf
  cases h1 : envLookup env (expressionKey 1) with
  | none => rw [h1] at hf; simp at hf
  | some b1 =>
    cases b1 with
    | name s9 => rw [h1] at hf; simp at hf
    | node e1 =>
      rw [h1] at hf
      cases h2 : envLookup env (expressionKey 2) with
      | none => rw [h2] at hf; simp at hf
      | some b2 =>
        cases b2 with
        | name s9 => rw [h2] at hf; simp at hf
        | node e2 =>
          rw [h2] at hf
          simp at hf
          refine ⟨e1, e2, hf.symm, ?_, ?_⟩ <;> rfl

/-- Inversion of rule 6: shape of the matched node and the bindings
the match produces. -/
theorem inv6 {n : Node} {env : Env} (h : matchNode pat6 n [] = some env) :
    ∃ e1 e2 e3, n = .expressionStatement (.conditionalExpression e1 e2 e3) ∧
      envLookup env (expressionKey 1) = some (.node e1) ∧
      envLookup env (expressionKey 2) = some (.node e2) ∧
      envLookup env (expressionKey 3) = some (.node e3) := by
  have hf := match_fill h
  simp [pat6, fillNode, fillList, fillOpt] at hf
  cases h1 : envLookup env (expressionKey 1) with
  | none => rw [h1] at hf; simp at hf
  | some b1 =>
    cases b1 with
    | name s9 => rw [h1] at hf; simp at hf
    | node e1 =>
      rw [h1] at hf
      cases h2 : envLookup env (expressionKey 2) with
      | none => rw [h2] at hf; simp at hf
      | some b2 =>
        cases b2 with
        | name s9 => rw [h2] at hf; simp at hf
        | node e2 =>
          rw [h2] at hf
          cases h3 : envLookup env (expressionKey 3) with
          | none => rw [h3] at hf; simp at hf
          | some b3 =>
            cases b3 with
            | name s9 => rw [h3] at hf; simp at hf
            | node e3 =>
              rw [h3] at hf
              simp at hf
              refine ⟨e1, e2, e3, hf.symm, ?_, ?_, ?_⟩ <;> rfl

/-- Inversion of rule 7: shape of the matched node and the bindings
the match produces. -/
theorem inv7 {n : Node} {env : Env} (h : matchNode pat7 n [] = some env) :
    ∃ e1 s1, n = .ifStatement e1 s1 none ∧
      envLookup env (expressionKey 1) = some (.node e1) ∧
      envLookup env (statementKey 1) = some (.node s1) := by
  have hf := match_fill h
  simp [pat7, fillNode, fillList, fillOpt] at hf
  cases h1 : envLookup env (expressionKey 1) with
  | none => rw [h1] at hf; simp at hf
  | some b1 =>
    cases b1 with
    | name s9 => rw [h1] at hf; simp at hf
    | node e1 =>
      rw [h1] at hf
      cases h2 : envLookup env (statementKey 1) with
      | none => rw [h2] at hf; simp at hf
      | some b2 =>
        cases b2 with
        | name s9 => rw [h2] at hf; simp at hf
        | node s1 =>
          rw [h2] at hf
          simp at hf
          refine ⟨e1, s1, hf.symm, ?_, ?_⟩ <;> rfl

/-- Inversion of rule 8: shape of the matched node and the bindings
the match produces. -/
theorem inv8 {n : Node} {env : Env} (h : matchNode pat8 n [] = some env) :
    ∃ e1 s1, n = .whileStatement e1 s1 ∧
      envLookup env (expressionKey 1) = some (.node e1) ∧
      envLookup env (statementKey 1) = some (.node s1) := by
  have hf := match_fill h
  simp [pat8, fillNode, fillList, fillOpt] at hf
  cases h1 : envLookup env (expressionKey 1) with
  | none => rw [h1] at hf; simp at hf
  | some b1 =>
    cases b1 with
    | name s9 => rw [h1] at hf; simp at hf
    | node e1 =>
      rw [h1] at hf
      cases h2 : envLookup env (statementKey 1) with
      | none => rw [h2] at hf; simp at hf
      | some b2 =>
        cases b2 with
        | name s9 => rw [h2] at hf; simp at hf
        | node s1 =>
          rw [h2] at hf
          simp at hf
          refine ⟨e1, s1, hf.symm, ?_, ?_⟩ <;> rfl

/-- Inversion of rule 9: shape of the matched node and the bindings
the match produces. -/
theorem inv9 {n : Node} {env : Env} (h : matchNode pat9 n [] = some env) :
    ∃ s1 e1, n = .doWhileStatement s1 e1 ∧
      envLookup env (statementKey 1) = some (.node s1) ∧
      envLookup env (expressionKey 1) = some (.node e1) := by
  have hf := match_fill h
  simp [pat9, fillNode, fillList, fillOpt] at hf
  cases h1 : envLookup env (statementKey 1) with
  | none => rw [h1] at hf; simp at hf
  | some b1 =>
    cases b1 with
    | name s9 => rw [h1] at hf; simp at hf
    | node s1 =>
      rw [h1] at hf
      cases h2 : envLookup env (expressionKey 1) with
      | none => rw [h2] at hf; simp at hf
      | some b2 =>
        cases b2 with
        | name s9 => rw [h2] at hf; simp at hf
        | node e1 =>
          rw [h2] at hf
          simp at hf
          refine ⟨s1, e1, hf.symm, ?_, ?_⟩ <;> rfl

/-- Inversion of rule 10: shape of the matched node and the bindings
the match produces. -/
theorem inv10 {n : Node} {env : Env} (h : matchNode pat10 n [] = some env) :
    ∃ e1 e2 e3 s1, n = .forStatement (some e1) (some e2) (some e3) s1 ∧
      envLookup env (expressionKey 1) = some (.node e1) ∧
      envLookup env (expressionKey 2) = some (.node e2) ∧
      envLookup env (expressionKey 3) = some (.node e3) ∧
      envLookup env (statementKey 1) = some (.node s1) := by
  have hf := match_fill h
  simp [pat10, fillNode, fillList, fillOpt] at hf
  cases h1 : envLookup env (expressionKey 1) with
  | none => rw [h1] at hf; simp at hf
  | some b1 =>
    cases b1 with
    | name s9 => rw [h1] at hf; simp at hf
    | node e1 =>
      rw [h1] at hf
      cases h2 : envLookup env (expressionKey 2) with
      | none => rw [h2] at hf; simp at hf
      | some b2 =>
        cases b2 with
        | name s9 => rw [h2] at hf; simp at hf
        | node e2 =>
          rw [h2] at hf
          cases h3 : envLookup env (expressionKey 3) with
          | none => rw [h3] at hf; simp at hf
          | some b3 =>
            cases b3 with
            | name s9 => rw [h3] at hf; simp at hf
            | node e3 =>
              rw [h3] at hf
              cases h4 : envLookup env (statementKey 1) with
              | none => rw [h4] at hf; simp at hf
              | some b4 =>
                cases b4 with
                | name s9 => rw [h4] at hf; simp at hf
                | node s1 =>
                  rw [h4] at hf
                  simp at hf
                  refine ⟨e1, e2, e3, s1, hf.symm, ?_, ?_, ?_, ?_⟩ <;> rfl

/-- Inversion of rule 11: shape of the matched node and the bindings
the match produces. -/
theorem inv11 {n : Node} {env : Env} (h : matchNode pat11 n [] = some env) :
    ∃ e1 e2 s1, n = .forInStatement e1 e2 s1 ∧
      envLookup env (expressionKey 1) = some (.node e1) ∧
      envLookup env (expressionKey 2) = some (.node e2) ∧
      envLookup env (statementKey 1) = some (.node s1) := by
  have hf := match_fill h
  simp [pat11, fillNode, fillList, fillOpt] at hf
  cases h1 : envLookup env (expressionKey 1) with
  | none => rw [h1] at hf; simp at hf
  | some b1 =>
    cases b1 with
    | name s9 => rw [h1] at hf; simp at hf
    | node e1 =>
      rw [h1] at hf
      cases h2 : envLookup env (expressionKey 2) with
      | none => rw [h2] at hf; simp at hf
      | some b2 =>
        cases b2 with
        | name s9 => rw [h2] at hf; simp at hf
        | node e2 =>
          rw [h2] at hf
          cases h3 : envLookup env (statementKey 1) with
          | none => rw [h3] at hf; simp at hf
          | some b3 =>
            cases b3 with
            | name s9 => rw [h3] at hf; simp at hf
            | node s1 =>
              rw [h3] at hf
              simp at hf
              refine ⟨e1, e2, s1, hf.symm, ?_, ?_, ?_⟩ <;> rfl

/-- Inversion of rule 12: shape of the matched node and the bindings
the match produces. -/
theorem inv12 {n : Node} {env : Env} (h : matchNode pat12 n [] = some env) :
    ∃ e1 e2 s1, n = .forOfStatement e1 e2 s1 ∧
      envLookup env (expressionKey 1) = some (.node e1) ∧
      envLookup env (expressionKey 2) = some (.node e2) ∧
      envLookup env (statementKey 1) = some (.node s1) := by
  have hf := match_fill h
  simp [pat12, fillNode, fillList, fillOpt] at hf
  cases h1 : envLookup env (expressionKey 1) with
  | none => rw [h1] at hf; simp at hf
  | some b1 =>
    cases b1 with
    | name s9 => rw [h1] at hf; simp at hf
    | node e1 =>
      rw [h1] at hf
      cases h2 : envLookup env (expressionKey 2) with
      | none => rw [h2] at hf; simp at hf
      | some b2 =>
        cases b2 with
        | name s9 => rw [h2] at hf; simp at hf
        | node e2 =>
          rw [h2] at hf
          cases h3 : envLookup env (statementKey 1) with
          | none => rw [h3] at hf; simp at hf
          | some b3 =>
            cases b3 with
            | name s9 => rw [h3] at hf; simp at hf
            | node s1 =>
              rw [h3] at hf
              simp at hf
              refine ⟨e1, e2, s1, hf.symm, ?_, ?_, ?_⟩ <;> rfl

/-- Inversion of rule 13: shape of the matched node and the bindings
the match produces. -/
theorem inv13 {n : Node} {env : Env} (h : matchNode pat13 n [] = some env) :
    ∃ f x, n = .functionDeclaration (.identifier f) [.identifier x] (.blockStatement [.returnStatement (some (.conditionalExpression (.logicalExpression "&&" (.identifier x) (.memberExpression (.identifier x) (.identifier "__esModule") false)) (.identifier x) (.objectExpression [.property (.identifier "default") (.identifier x)])))]) ∧
      envLookup env ("placeholder1") = some (.name f) ∧
      envLookup env ("placeholder2") = some (.name x) := by
  have hf := match_fill h
  simp [pat13, fillNode, fillList, fillOpt] at hf
  cases h1 : envLookup env ("placeholder1") with
  | none => rw [h1] at hf; simp at hf
  | some b1 =>
    cases b1 with
    | node s9 => rw [h1] at hf; simp at hf
    | name f =>
      rw [h1] at hf
      cases h2 : envLookup env ("placeholder2") with
      | none => rw [h2] at hf; simp at hf
      | some b2 =>
        cases b2 with
        | node s9 => rw [h2] at hf; simp at hf
        | name x =>
          rw [h2] at hf
          simp at hf
          refine ⟨f, x, hf.symm, ?_, ?_⟩ <;> rfl

/-- Does the candidate node root a transient Program container. -/
def isProg : Node → Bool
  | .program _ => true
  | _ => false

/-- Is the literal argument of a negated-literal idiom 0 or 1. -/
def bangArg : Node → Bool
  | .literal (.num k) => (k == 0) || (k == 1)
  | _ => false

/-- Is the node one of the two negated-literal idioms !1 and !0. -/
def isBangLit : Node → Bool
  | .unaryExpression op a => streq op "!" && bangArg a
  | _ => false

mutual
/-- Does f hold for any subnode (the node itself included). -/
def occurs (f : Node → Bool) : Node → Bool
  | .literal v => f (Node.literal v)
  | .identifier s => f (Node.identifier s)
  | .unaryExpression op a => f (Node.unaryExpression op a) || occurs f a
  | .binaryExpression op l r => f (Node.binaryExpression op l r) || occurs f l || occurs f r
  | .logicalExpression op l r => f (Node.logicalExpression op l r) || occurs f l || occurs f r
  | .assignmentExpression op l r => f (Node.assignmentExpression op l r) || occurs f l || occurs f r
  | .conditionalExpression t c a => f (Node.conditionalExpression t c a) || occurs f t || occurs f c || occurs f a
  | .sequenceExpression es => f (Node.sequenceExpression es) || occursL f es
  | .callExpression c args => f (Node.callExpression c args) || occurs f c || occursL f args
  | .memberExpression o p cm => f (Node.memberExpression o p cm) || occurs f o || occurs f p
  | .objectExpression ps => f (Node.objectExpression ps) || occursL f ps
  | .property k v => f (Node.property k v) || occurs f k || occurs f v
  | .expressionStatement e => f (Node.expressionStatement e) || occurs f e
  | .ifStatement t c a => f (Node.ifStatement t c a) || occurs f t || occurs f c || occursO f a
  | .whileStatement t b => f (Node.whileStatement t b) || occurs f t || occurs f b
  | .doWhileStatement b t => f (Node.doWhileStatement b t) || occurs f b || occurs f t
  | .forStatement i t u b => f (Node.forStatement i t u b) || occursO f i || occursO f t || occursO f u || occurs f b
  | .forInStatement l r b => f (Node.forInStatement l r b) || occurs f l || occurs f r || occurs f b
  | .forOfStatement l r b => f (Node.forOfStatement l r b) || occurs f l || occurs f r || occurs f b
  | .functionDeclaration i ps b => f (Node.functionDeclaration i ps b) || occurs f i || occursL f ps || occurs f b
  | .returnStatement a => f (Node.returnStatement a) || occursO f a
  | .blockStatement b => f (Node.blockStatement b) || occursL f b
  | .program b => f (Node.program b) || occursL f b
  | .variableDeclaration k ds => f (Node.variableDeclaration k ds) || occursL f ds
  | .variableDeclarator i v => f (Node.variableDeclarator i v) || occurs f i || occursO f v
  | .switchStatement d cs => f (Node.switchStatement d cs) || occurs f d || occursL f cs
  | .switchCase t c => f (Node.switchCase t c) || occursO f t || occursL f c
  | .tryStatement b hh ff => f (Node.tryStatement b hh ff) || occurs f b || occursO f hh || occursO f ff
  | .labeledStatement l b => f (Node.labeledStatement l b) || occurs f l || occurs f b
  | .breakStatement => f (Node.breakStatement)
  | .continueStatement => f (Node.continueStatement)
  | .throwStatement a => f (Node.throwStatement a) || occurs f a
  | .statementPlaceholder i m => f (Node.statementPlaceholder i m)
  | .expressionPlaceholder i d => f (Node.expressionPlaceholder i d)

def occursL (f : Node → Bool) : List Node → Bool
  | [] => false
  | c :: cs => occurs f c || occursL f cs

def occursO (f : Node → Bool) : Option Node → Bool
  | none => false
  | some c => occurs f c
end

/-- A transient Program container occurs somewhere in the tree. -/
def hasProg : Node → Bool := occurs isProg

/-- A negated-literal idiom !1 or !0 occurs somewhere in the tree. -/
def hasBang : Node → Bool := occurs isBangLit

theorem occursL_append (f : Node → Bool) (xs ys : List Node) :
    occursL f (xs ++ ys) = (occursL f xs || occursL f ys) := by
  induction xs with
  | nil => simp [occursL]
  | cons a as ih => simp [occursL, ih, Bool.or_assoc]

theorem occursO_toList (f : Node → Bool) (o : Option Node) :
    occursL f o.toList = occursO f o := by
  cases o <;> simp [occursL, occursO]

theorem occurs_children (f : Node → Bool) (n : Node) :
    occurs f n = (f n || occursL f (nodeChildren n)) := by
  cases n <;>
    simp [occurs, occursL, nodeChildren, occursL_append, occursO_toList, Bool.or_assoc]

/-- Root kinds a rule replacement can have: the boolean literals,
undefined, the braced control-flow forms and the interop function; never
a Program container, a unary expression or a numeric literal. -/
def replacementRoot : Node → Bool
  | .literal (.bool _) => true
  | .identifier _ => true
  | .ifStatement _ _ _ => true
  | .whileStatement _ _ => true
  | .doWhileStatement _ _ => true
  | .forStatement _ _ _ _ => true
  | .forInStatement _ _ _ => true
  | .forOfStatement _ _ _ => true
  | .functionDeclaration _ _ _ => true
  | _ => false

set_option maxHeartbeats 1000000 in
/-- What a successful rule application guarantees: the replacement has a
replacement root kind, and each of its direct children is smaller than
the matched node and introduces no Program container the matched node
did not already contain. -/
theorem rules_spec {n r : Node} (h : applyRules rules n = some r) :
    replacementRoot r = true ∧
    ∀ c, c ∈ nodeChildren r → size c < size n ∧ (hasProg n = false → hasProg c = false) := by
  simp only [rules, applyRules] at h
  cases m1 : matchNode pat1 n [] with
  | some env =>
    simp only [m1] at h
    obtain ⟨hn, henv⟩ := inv1 m1
    subst hn
    simp [rep1, fillNode, fillList, fillOpt, Except.toOption] at h
    subst h
    exact ⟨rfl, fun c hc => absurd hc (by simp [nodeChildren])⟩
  | none =>
    simp only [m1] at h
    cases m2 : matchNode pat2 n [] with
    | some env =>
      simp only [m2] at h
      obtain ⟨hn, henv⟩ := inv2 m2
      subst hn
      simp [rep2, fillNode, fillList, fillOpt, Except.toOption] at h
      subst h
      exact ⟨rfl, fun c hc => absurd hc (by simp [nodeChildren])⟩
    | none =>
      simp only [m2] at h
      cases m3 : matchNode pat3 n [] with
      | some env =>
        simp only [m3] at h
        obtain ⟨hn, henv⟩ := inv3 m3
        subst hn
        simp [rep3, fillNode, fillList, fillOpt, Except.toOption] at h
        subst h
        exact ⟨rfl, fun c hc => absurd hc (by simp [nodeChildren])⟩
      | none =>
        simp only [m3] at h
        cases m4 : matchNode pat4 n [] with
        | some env =>
          simp only [m4] at h
          obtain ⟨e1, e2, hn, hl1, hl2⟩ := inv4 m4
          subst hn
          simp [rep4, fillNode, fillList, fillOpt, hl1, hl2, Except.toOption] at h
          subst h
          refine ⟨rfl, ?_⟩
          intro c hc
          simp [nodeChildren] at hc
          have hp_e1 := size_pos e1
          have hp_e2 := size_pos e2
          rcases hc with rfl | rfl <;>
            exact ⟨by simp [size, sizeL, sizeO] <;> omega,
              fun hp => by simp [hasProg, occurs, occursL, occursO, isProg] at hp ⊢ <;> tauto⟩
        | none =>
          simp only [m4] at h
          cases m5 : matchNode pat5 n [] with
          | some env =>
            simp only [m5] at h
            obtain ⟨e1, e2, hn, hl1, hl2⟩ := inv5 m5
            subst hn
            simp [rep5, fillNode, fillList, fillOpt, hl1, hl2, Except.toOption] at h
            subst h
            refine ⟨rfl, ?_⟩
            intro c hc
            simp [nodeChildren] at hc
            have hp_e1 := size_pos e1
            have hp_e2 := size_pos e2
            rcases hc with rfl | rfl <;>
              exact ⟨by simp [size, sizeL, sizeO] <;> omega,
                fun hp => by simp [hasProg, occurs, occursL, occursO, isProg] at hp ⊢ <;> tauto⟩
          | none =>
            simp only [m5] at h
            cases m6 : matchNode pat6 n [] with
            | some env =>
              simp only [m6] at h
              obtain ⟨e1, e2, e3, hn, hl1, hl2, hl3⟩ := inv6 m6
              subst hn
              simp [rep6, fillNode, fillList, fillOpt, hl1, hl2, hl3, Except.toOption] at h
              subst h
              refine ⟨rfl, ?_⟩
              intro c hc
              simp [nodeChildren] at hc
              have hp_e1 := size_pos e1
              have hp_e2 := size_pos e2
              have hp_e3 := size_pos e3
              rcases hc with rfl | rfl | rfl <;>
                exact ⟨by simp [size, sizeL, sizeO] <;> omega,
                  fun hp => by simp [hasProg, occurs, occursL, occursO, isProg] at hp ⊢ <;> tauto⟩
            | none =>
              simp only [m6] at h
              cases m7 : matchNode pat7 n [] with
              | some env =>
                simp only [m7] at h
                obtain ⟨e1, s1, hn, hl1, hl2⟩ := inv7 m7
                subst hn
                simp [rep7, fillNode, fillList, fillOpt, hl1, hl2, Except.toOption] at h
                subst h
                refine ⟨rfl, ?_⟩
                intro c hc
                simp [nodeChildren] at hc
                have hp_e1 := size_pos e1
                have hp_s1 := size_pos s1
                rcases hc with rfl | rfl <;>
                  exact ⟨by simp [size, sizeL, sizeO] <;> omega,
                    fun hp => by simp [hasProg, occurs, occursL, occursO, isProg] at hp ⊢ <;> tauto⟩
              | none =>
                simp only [m7] at h
                cases m8 : matchNode pat8 n [] with
                | some env =>
                  simp only [m8] at h
                  obtain ⟨e1, s1, hn, hl1, hl2⟩ := inv8 m8
                  subst hn
                  simp [rep8, fillNode, fillList, fillOpt, hl1, hl2, Except.toOption] at h
                  subst h
                  refine ⟨rfl, ?_⟩
                  intro c hc
                  simp [nodeChildren] at hc
                  have hp_e1 := size_pos e1
                  have hp_s1 := size_pos s1
                  rcases hc with rfl | rfl <;>
                    exact ⟨by simp [size, sizeL, sizeO] <;> omega,
                      fun hp => by simp [hasProg, occurs, occursL, occursO, isProg] at hp ⊢ <;> tauto⟩
                | none =>
                  simp only [m8] at h
                  cases m9 : matchNode pat9 n [] with
                  | some env =>
                    simp only [m9] at h
                    obtain ⟨s1, e1, hn, hl1, hl2⟩ := inv9 m9
                    subst hn
                    simp [rep9, fillNode, fillList, fillOpt, hl1, hl2, Except.toOption] at h
                    subst h
                    refine ⟨rfl, ?_⟩
                    intro c hc
                    simp [nodeChildren] at hc
                    have hp_s1 := size_pos s1
                    have hp_e1 := size_pos e1
                    rcases hc with rfl | rfl <;>
                      exact ⟨by simp [size, sizeL, sizeO] <;> omega,
                        fun hp => by simp [hasProg, occurs, occursL, occursO, isProg] at hp ⊢ <;> tauto⟩
                  | none =>
                    simp only [m9] at h
                    cases m10 : matchNode pat10 n [] with
                    | some env =>
                      simp only [m10] at h
                      obtain ⟨e1, e2, e3, s1, hn, hl1, hl2, hl3, hl4⟩ := inv10 m10
                      subst hn
                      simp [rep10, fillNode, fillList, fillOpt, hl1, hl2, hl3, hl4, Except.toOption] at h
                      subst h
                      refine ⟨rfl, ?_⟩
                      intro c hc
                      simp [nodeChildren] at hc
                      have hp_e1 := size_pos e1
                      have hp_e2 := size_pos e2
                      have hp_e3 := size_pos e3
                      have hp_s1 := size_pos s1
                      rcases hc with rfl | rfl | rfl | rfl <;>
                        exact ⟨by simp [size, sizeL, sizeO] <;> omega,
                          fun hp => by simp [hasProg, occurs, occursL, occursO, isProg] at hp ⊢ <;> tauto⟩
                    | none =>
                      simp only [m10] at h
                      cases m11 : matchNode pat11 n [] with
                      | some env =>
                        simp only [m11] at h
                        obtain ⟨e1, e2, s1, hn, hl1, hl2, hl3⟩ := inv11 m11
                        subst hn
                        simp [rep11, fillNode, fillList, fillOpt, hl1, hl2, hl3, Except.toOption] at h
                        subst h
                        refine ⟨rfl, ?_⟩
                        intro c hc
                        simp [nodeChildren] at hc
                        have hp_e1 := size_pos e1
                        have hp_e2 := size_pos e2
                        have hp_s1 := size_pos s1
                        rcases hc with rfl | rfl | rfl <;>
                          exact ⟨by simp [size, sizeL, sizeO] <;> omega,
                            fun hp => by simp [hasProg, occurs, occursL, occursO, isProg] at hp ⊢ <;> tauto⟩
                      | none =>
                        simp only [m11] at h
                        cases m12 : matchNode pat12 n [] with
                        | some env =>
                          simp only [m12] at h
                          obtain ⟨e1, e2, s1, hn, hl1, hl2, hl3⟩ := inv12 m12
                          subst hn
                          simp [rep12, fillNode, fillList, fillOpt, hl1, hl2, hl3, Except.toOption] at h
                          subst h
                          refine ⟨rfl, ?_⟩
                          intro c hc
                          simp [nodeChildren] at hc
                          have hp_e1 := size_pos e1
                          have hp_e2 := size_pos e2
                          have hp_s1 := size_pos s1
                          rcases hc with rfl | rfl | rfl <;>
                            exact ⟨by simp [size, sizeL, sizeO] <;> omega,
                              fun hp => by simp [hasProg, occurs, occursL, occursO, isProg] at hp ⊢ <;> tauto⟩
                        | none =>
                          simp only [m12] at h
                          cases m13 : matchNode pat13 n [] with
                          | some env =>
                            simp only [m13] at h
                            obtain ⟨f1, x1, hn, hl1, hl2⟩ := inv13 m13
                            subst hn
                            simp [rep13, fillNode, fillList, fillOpt, hl1, hl2, Except.toOption] at h
                            subst h
                            refine ⟨rfl, ?_⟩
                            intro c hc
                            simp [nodeChildren] at hc
                            rcases hc with rfl | rfl | rfl <;>
                              exact ⟨by simp [size, sizeL, sizeO] <;> omega,
                                fun hp => by simp [hasProg, occurs, occursL, occursO, isProg] at hp ⊢ <;> tauto⟩
                          | none =>
                            simp only [m13] at h
                            exact Option.noConfusion h

theorem nodeChildren_size {n c : Node} (hc : c ∈ nodeChildren n) : size c < size n := by
  cases n <;> simp [nodeChildren] at hc <;> (try casesm* _ ∨ _) <;> (try subst_vars) <;>
    first
      | (simp [size, sizeL, sizeO] <;> omega)
      | (have h9 := sizeL_mem hc; simp [size, sizeL, sizeO] <;> omega)
      | (rename_i hmem; have := sizeL_mem hmem; simp [size, sizeL, sizeO] <;> omega)

theorem occursL_mem {f : Node → Bool} {c : Node} :
    ∀ {l : List Node}, c ∈ l → occursL f l = false → occurs f c = false := by
  intro l hc hl
  induction l with
  | nil => cases hc
  | cons a as ih =>
    simp [occursL] at hl
    cases hc with
    | head => exact hl.1
    | tail _ h2 => exact ih h2 hl.2

theorem hasProg_child {n c : Node} (hc : c ∈ nodeChildren n) (h : hasProg n = false) :
    hasProg c = false := by
  have he := occurs_children isProg n
  unfold hasProg at h ⊢
  rw [he] at h
  simp at h
  exact occursL_mem hc h.2

theorem enter_not_seq {n : Node} (h : ∀ es, n ≠ .expressionStatement (.sequenceExpression es)) :
    enter n = (applyRules rules n).getD n := by
  cases n <;> try rfl
  rename_i e
  cases e <;> try rfl
  rename_i es
  exact absurd rfl (h es)

theorem enter_child_size {n c : Node} (hc : c ∈ nodeChildren (enter n)) : size c < size n := by
  by_cases happ : ∃ es, n = .expressionStatement (.sequenceExpression es)
  · obtain ⟨es, rfl⟩ := happ
    simp only [enter, nodeChildren] at hc
    simp at hc
    obtain ⟨e, he, rfl⟩ := hc
    have := sizeL_mem he
    simp [size, sizeL]
    omega
  · rw [enter_not_seq (by intro es hne; exact happ ⟨es, hne⟩)] at hc
    cases happly : applyRules rules n with
    | some r =>
      rw [happly] at hc
      simp at hc
      exact ((rules_spec happly).2 c hc).1
    | none =>
      rw [happly] at hc
      simp at hc
      exact nodeChildren_size hc

theorem enter_child_prog {n c : Node} (hc : c ∈ nodeChildren (enter n))
    (h : hasProg n = false) : hasProg c = false := by
  by_cases happ : ∃ es, n = .expressionStatement (.sequenceExpression es)
  · obtain ⟨es, rfl⟩ := happ
    simp only [enter, nodeChildren] at hc
    simp at hc
    obtain ⟨e, he, rfl⟩ := hc
    unfold hasProg at h ⊢
    rw [occurs_children] at h
    simp [nodeChildren, isProg, occursL] at h
    rw [occurs_children] at h
    simp [nodeChildren, isProg] at h
    rw [occurs_children]
    simp [nodeChildren, isProg, occursL]
    exact occursL_mem he h
  · rw [enter_not_seq (by intro es hne; exact happ ⟨es, hne⟩)] at hc
    cases happly : applyRules rules n with
    | some r =>
      rw [happly] at hc
      simp at hc
      exact ((rules_spec happly).2 c hc).2 h
    | none =>
      rw [happly] at hc
      simp at hc
      exact hasProg_child hc h

theorem enter_self_or_root (n : Node) :
    enter n = n ∨ isProg (enter n) = true ∨ replacementRoot (enter n) = true := by
  by_cases happ : ∃ es, n = .expressionStatement (.sequenceExpression es)
  · obtain ⟨es, rfl⟩ := happ
    right; left; rfl
  · rw [enter_not_seq (by intro es hne; exact happ ⟨es, hne⟩)]
    cases happly : applyRules rules n with
    | some r => right; right; simpa using (rules_spec happly).1
    | none => left; rfl

theorem mapChildren_congr {f g : Node → Node} {n : Node}
    (h : ∀ c, c ∈ nodeChildren n → f c = g c) : mapChildren f n = mapChildren g n := by
  cases n <;> simp only [mapChildren] <;> congr 1 <;>
    first
      | rfl
      | exact h _ (by simp [nodeChildren])
      | exact List.map_congr_left (fun x hx => h x (by simp [nodeChildren]; tauto))
      | exact Option.map_congr (fun x hx => h x (by simp [nodeChildren, Option.mem_def] at hx ⊢ <;> tauto))

theorem visitF_stable : ∀ (bound f g : Nat) (pb : Bool) (n : Node), size n ≤ bound →
    size n ≤ f → size n ≤ g → visitF f pb n = visitF g pb n := by
  intro bound
  induction bound using Nat.strong_induction_on with
  | _ bound IH =>
    intro f g pb n hb hf hg
    have hpos := size_pos n
    cases f with
    | zero => omega
    | succ f2 =>
      cases g with
      | zero => omega
      | succ g2 =>
        simp only [visitF]
        congr 1
        apply mapChildren_congr
        intro c hc
        have hcs := enter_child_size hc
        exact IH (size c) (by omega) f2 g2 _ c le_rfl (by omega) (by omega)

theorem visit_eq (pb : Bool) (n : Node) :
    visit pb n =
      leaveStep pb (mapChildren (visit (isBlockLike (enter n))) (enter n)) := by
  unfold visit
  have hpos := size_pos n
  cases hs : size n with
  | zero => omega
  | succ s2 =>
    simp only [visitF]
    congr 1
    apply mapChildren_congr
    intro c hc
    have hcs := enter_child_size hc
    exact visitF_stable (size c) s2 (size c) _ c le_rfl (by omega) le_rfl

theorem occursL_all {f : Node → Bool} :
    ∀ {l : List Node}, occursL f l = false ↔ ∀ c ∈ l, occurs f c = false := by
  intro l
  induction l with
  | nil => simp [occursL]
  | cons a as ih => simp [occursL, ih]

theorem occursL_map {f : Node → Bool} {g : Node → Node} {l : List Node} :
    occursL f (l.map g) = false ↔ ∀ c ∈ l, occurs f (g c) = false := by
  induction l with
  | nil => simp [occursL]
  | cons a as ih => simp [occursL, ih]

theorem spliceOne_not_prog {c : Node} (h : isProg c = false) : spliceOne c = [c] := by
  cases c <;> simp_all [spliceOne, isProg]

theorem spliceL_id : ∀ {l : List Node}, (∀ x ∈ l, hasProg x = false) → spliceL l = l := by
  intro l h
  induction l with
  | nil => rfl
  | cons a as ih =>
    have ha := h a (by simp)
    have hroot : isProg a = false := by
      unfold hasProg at ha
      rw [occurs_children] at ha
      simp at ha
      exact ha.1
    simp [spliceL, spliceOne_not_prog hroot, ih (fun x hx => h x (by simp [hx]))]

theorem spliceL_inner_free :
    ∀ {l : List Node}, (∀ x ∈ l, occursL isProg (nodeChildren x) = false) →
      ∀ y ∈ spliceL l, hasProg y = false := by
  intro l h
  induction l with
  | nil => intro y hy; cases hy
  | cons a as ih =>
    intro y hy
    simp only [spliceL, List.mem_append] at hy
    cases hy with
    | inl hy1 =>
      have ha := h a (by simp)
      cases hpa : isProg a with
      | false =>
        rw [spliceOne_not_prog hpa] at hy1
        simp at hy1
        subst hy1
        unfold hasProg
        rw [occurs_children]
        simp [hpa]
        exact ha
      | true =>
        cases a <;> simp [isProg] at hpa
        rename_i b
        simp only [spliceOne] at hy1
        simp only [nodeChildren] at ha
        have hfree : ∀ x ∈ b, hasProg x = false := fun x hx => occursL_all.1 ha x hx
        rw [spliceL_id hfree] at hy1
        exact hfree y hy1
    | inr hy2 => exact ih (fun x hx => h x (by simp [hx])) y hy2

theorem splice_occursL {f : Node → Bool} :
    ∀ (l : List Node), occursL f l = false → occursL f (spliceL l) = false := by
  suffices H : ∀ (bound : Nat) (l : List Node), sizeL l ≤ bound →
      occursL f l = false → occursL f (spliceL l) = false by
    exact fun l h => H (sizeL l) l le_rfl h
  intro bound
  induction bound using Nat.strong_induction_on with
  | _ bound IH =>
    intro l hb h
    cases l with
    | nil => simpa [spliceL] using h
    | cons a as =>
      simp [occursL] at h
      have hpa2 := size_pos a
      simp [sizeL] at hb
      simp only [spliceL]
      rw [occursL_append]
      simp
      refine ⟨?_, ?_⟩
      · cases hpa : isProg a with
        | false => rw [spliceOne_not_prog hpa]; simp [occursL, h.1]
        | true =>
          cases a <;> simp [isProg] at hpa
          rename_i b
          simp only [spliceOne]
          have h1 := h.1
          rw [occurs_children] at h1
          simp [nodeChildren] at h1
          have hsz : size (Node.program b) = 1 + sizeL b := by simp [size]
          exact IH (bound - 1) (by omega) b (by omega) h1.2
      · exact IH (bound - 1) (by omega) as (by omega) h.2

theorem mapChildren_children (f : Node → Node) (n : Node) :
    nodeChildren (mapChildren f n) = (nodeChildren n).map f := by
  cases n <;> simp [mapChildren, nodeChildren] <;> cases_type* Option <;> simp

theorem leaveStep_other {pb : Bool} {m : Node}
    (h1 : isProg m = false) (h2 : isBlockLike m = false) : leaveStep pb m = m := by
  cases m <;> simp_all [leaveStep, isProg, isBlockLike]

theorem mapChildren_lit {f : Node → Node} {x : Node} {v : Lit}
    (h : mapChildren f x = .literal v) : x = .literal v := by
  cases x <;> simp [mapChildren] at h <;> simp [h]

theorem leaveStep_lit {pb : Bool} {x : Node} {v : Lit}
    (h : leaveStep pb x = .literal v) : x = .literal v := by
  cases x <;> cases pb <;> simp [leaveStep] at h <;> simp [h]

theorem mapChildren_unary {f : Node → Node} {x : Node} {op : String} {a : Node}
    (h : mapChildren f x = .unaryExpression op a) :
    ∃ a0, x = .unaryExpression op a0 ∧ a = f a0 := by
  cases x <;> simp [mapChildren] at h
  rename_i a0
  exact ⟨a0, by simp [h.1], h.2.symm⟩

theorem leaveStep_unary {pb : Bool} {x : Node} {op : String} {a : Node}
    (h : leaveStep pb x = .unaryExpression op a) : x = .unaryExpression op a := by
  cases x <;> cases pb <;> simp [leaveStep] at h <;> simp [h]

theorem isBangLit_inv {x : Node} (h : isBangLit x = true) :
    x = .unaryExpression "!" (.literal (.num 0)) ∨
    x = .unaryExpression "!" (.literal (.num 1)) := by
  cases x <;> simp [isBangLit] at h
  rename_i op a
  obtain ⟨hop, ha⟩ := h
  have := (streq_iff _ _).1 hop; subst this
  cases a <;> simp [bangArg] at ha
  rename_i v
  cases v <;> simp [bangArg] at ha
  rename_i k
  rcases ha with rfl | rfl
  · left; rfl
  · right; rfl

theorem mapChildren_isProg (f : Node → Node) (n : Node) :
    isProg (mapChildren f n) = isProg n := by
  cases n <;> rfl

theorem mapChildren_isBlockLike (f : Node → Node) (n : Node) :
    isBlockLike (mapChildren f n) = isBlockLike n := by
  cases n <;> rfl

theorem leaveStep_bang {pb : Bool} {m : Node} (h : occurs isBangLit m = false) :
    occurs isBangLit (leaveStep pb m) = false := by
  cases m <;> cases pb <;> simp [leaveStep] <;> try exact h
  all_goals
    (rw [occurs_children] at h ⊢;
     simp [nodeChildren, isBangLit] at h ⊢;
     exact splice_occursL _ h)

theorem rules_program (b : List Node) : applyRules rules (.program b) = none := by
  simp [rules, applyRules, pat1, pat2, pat3, pat4, pat5, pat6, pat7, pat8, pat9, pat10,
    pat11, pat12, pat13, matchNode]

theorem enter_program (b : List Node) : enter (.program b) = .program b := by
  have h := enter_not_seq
    (show ∀ es, (Node.program b) ≠ .expressionStatement (.sequenceExpression es) by
      intro es h2; cases h2)
  rw [h, rules_program]
  rfl

theorem enter_bang1 :
    enter (.unaryExpression "!" (.literal (.num 1))) = .literal (.bool false) := rfl

theorem enter_bang0 :
    enter (.unaryExpression "!" (.literal (.num 0))) = .literal (.bool true) := rfl

theorem visitNumLit {pb : Bool} {m : Node} {k : Int}
    (h : visit pb m = .literal (.num k)) : m = .literal (.num k) := by
  rw [visit_eq] at h
  have h2 := mapChildren_lit (leaveStep_lit h)
  rcases enter_self_or_root m with he | he | he
  · rw [he] at h2; exact h2
  · rw [h2] at he; simp [isProg] at he
  · rw [h2] at he; simp [replacementRoot] at he

theorem enter_child_inner {n c : Node} (hc : c ∈ nodeChildren (enter n))
    (h : occursL isProg (nodeChildren n) = false) : hasProg c = false := by
  cases hp : isProg n with
  | true =>
    cases n <;> simp [isProg] at hp
    rename_i b
    rw [enter_program] at hc
    simp only [nodeChildren] at hc h
    unfold hasProg
    exact occursL_all.1 h c hc
  | false =>
    have hfull : hasProg n = false := by
      unfold hasProg; rw [occurs_children]; simp [hp, h]
    exact enter_child_prog hc hfull

theorem leaveStep_body_free {pb : Bool} {l : List Node}
    (h : ∀ x ∈ l, occursL isProg (nodeChildren x) = false) :
    (occursL isProg (nodeChildren (leaveStep pb (.program l))) = false ∧
     (pb = false → hasProg (leaveStep pb (.program l)) = false)) ∧
    (occursL isProg (nodeChildren (leaveStep pb (.blockStatement l))) = false ∧
     hasProg (leaveStep pb (.blockStatement l)) = false) := by
  have hfree : ∀ y ∈ spliceL l, hasProg y = false := spliceL_inner_free h
  have hocc : occursL isProg (spliceL l) = false :=
    occursL_all.2 (fun c hc => hfree c hc)
  refine ⟨⟨?_, ?_⟩, ?_, ?_⟩
  · cases pb <;> simp [leaveStep, nodeChildren, hocc]
  · intro hpb; subst hpb
    simp only [leaveStep]
    unfold hasProg
    rw [occurs_children]
    simp [isProg, nodeChildren, hocc]
  · cases pb <;> simp [leaveStep, nodeChildren, hocc]
  · simp only [leaveStep]
    unfold hasProg
    rw [occurs_children]
    simp [isProg, nodeChildren, hocc]

set_option maxHeartbeats 1000000 in
theorem visit_prog : ∀ (bound : Nat) (n : Node) (pb : Bool), size n ≤ bound →
    occursL isProg (nodeChildren n) = false →
    occursL isProg (nodeChildren (visit pb n)) = false ∧
    (pb = false → hasProg (visit pb n) = false) := by
  intro bound
  induction bound using Nat.strong_induction_on with
  | _ bound IH =>
    intro n pb hb hn
    rw [visit_eq]
    have hIH : ∀ c, c ∈ nodeChildren (enter n) → ∀ pb2 : Bool,
        occursL isProg (nodeChildren (visit pb2 c)) = false ∧
        (pb2 = false → hasProg (visit pb2 c) = false) := by
      intro c hc pb2
      have hs := enter_child_size hc
      have hf := enter_child_inner hc hn
      have hinner : occursL isProg (nodeChildren c) = false := by
        unfold hasProg at hf; rw [occurs_children] at hf; simp at hf; exact hf.2
      exact IH (size c) (by omega) c pb2 le_rfl hinner
    by_cases hpe : isProg (enter n) = true
    · obtain ⟨b, hb2⟩ : ∃ b, enter n = .program b := by
        cases he : enter n <;> rw [he] at hpe <;> simp [isProg] at hpe <;> exact ⟨_, rfl⟩
      rw [hb2] at hIH ⊢
      simp only [mapChildren, isBlockLike]
      have hmap : ∀ x ∈ b.map (visit true), occursL isProg (nodeChildren x) = false := by
        intro x hx
        simp at hx
        obtain ⟨c, hc, rfl⟩ := hx
        exact (hIH c (by simp [nodeChildren, hc]) true).1
      exact (leaveStep_body_free hmap).1
    · by_cases hbe : isBlockLike (enter n) = true
      · obtain ⟨b, hb2⟩ : ∃ b, enter n = .blockStatement b := by
          cases he : enter n <;> rw [he] at hpe hbe <;> simp [isProg, isBlockLike] at hpe hbe <;>
            exact ⟨_, rfl⟩
        rw [hb2] at hIH ⊢
        simp only [mapChildren, isBlockLike]
        have hmap : ∀ x ∈ b.map (visit true), occursL isProg (nodeChildren x) = false := by
          intro x hx
          simp at hx
          obtain ⟨c, hc, rfl⟩ := hx
          exact (hIH c (by simp [nodeChildren, hc]) true).1
        exact ⟨(leaveStep_body_free hmap).2.1, fun _ => (leaveStep_body_free hmap).2.2⟩
      · have hbe2 : isBlockLike (enter n) = false := by
          cases hx : isBlockLike (enter n)
          · rfl
          · exact absurd hx hbe
        have hpe2 : isProg (enter n) = false := by
          cases hx : isProg (enter n)
          · rfl
          · exact absurd hx hpe
        rw [hbe2]
        have hlp : isProg (mapChildren (visit false) (enter n)) = false := by
          rw [mapChildren_isProg]; exact hpe2
        have hlb : isBlockLike (mapChildren (visit false) (enter n)) = false := by
          rw [mapChildren_isBlockLike]; exact hbe2
        rw [leaveStep_other hlp hlb]
        have hkids : occursL isProg (nodeChildren (mapChildren (visit false) (enter n))) = false := by
          rw [mapChildren_children]
          rw [occursL_map]
          intro c hc
          have := (hIH c hc false).2 rfl
          unfold hasProg at this
          exact this
        refine ⟨hkids, fun _ => ?_⟩
        unfold hasProg
        rw [occurs_children]
        simp [hlp, hkids]

set_option maxHeartbeats 1000000 in
theorem visit_bang : ∀ (bound : Nat) (n : Node) (pb : Bool), size n ≤ bound →
    hasBang (visit pb n) = false := by
  intro bound
  induction bound using Nat.strong_induction_on with
  | _ bound IH =>
    intro n pb hb
    rw [visit_eq]
    unfold hasBang
    apply leaveStep_bang
    rw [occurs_children]
    simp only [Bool.or_eq_false_iff]
    constructor
    · cases hbang : isBangLit (mapChildren (visit (isBlockLike (enter n))) (enter n)) with
      | false => rfl
      | true =>
        exfalso
        rcases isBangLit_inv hbang with he | he
        · obtain ⟨a0, ha0, hva⟩ := mapChildren_unary he
          have ha2 : a0 = .literal (.num 0) := visitNumLit hva.symm
          subst ha2
          rcases enter_self_or_root n with h3 | h3 | h3
          · have hn2 : n = .unaryExpression "!" (.literal (.num 0)) := by rw [← h3, ha0]
            rw [hn2, enter_bang0] at ha0
            exact Node.noConfusion ha0
          · rw [ha0] at h3; simp [isProg] at h3
          · rw [ha0] at h3; simp [replacementRoot] at h3
        · obtain ⟨a0, ha0, hva⟩ := mapChildren_unary he
          have ha2 : a0 = .literal (.num 1) := visitNumLit hva.symm
          subst ha2
          rcases enter_self_or_root n with h3 | h3 | h3
          · have hn2 : n = .unaryExpression "!" (.literal (.num 1)) := by rw [← h3, ha0]
            rw [hn2, enter_bang1] at ha0
            exact Node.noConfusion ha0
          · rw [ha0] at h3; simp [isProg] at h3
          · rw [ha0] at h3; simp [replacementRoot] at h3
    · rw [mapChildren_children]
      rw [occursL_map]
      intro c hc
      have hs := enter_child_size hc
      have := IH (size c) (by omega) c (isBlockLike (enter n)) le_rfl
      unfold hasBang at this
      exact this

theorem applyRules_nomatch : ∀ (rs : List (Node × Node)) (n : Node),
    (∀ pr ∈ rs, matchNode pr.1 n [] = none) → applyRules rs n = none := by
  intro rs n
  induction rs with
  | nil => intro h; rfl
  | cons hd tl IH =>
      intro h
      obtain ⟨p, r⟩ := hd
      have h0 : matchNode p n [] = none := h (p, r) (List.mem_cons_self _ _)
      show applyRules ((p, r) :: tl) n = none
      simp only [applyRules, h0]
      exact IH (fun pr hpr => h pr (List.mem_cons_of_mem _ hpr))

theorem applyRules_first : ∀ (rs : List (Node × Node)) (n : Node) (i : Nat)
    (hi : i < rs.length) (env : Env),
    (∀ (j : Nat) (hj : j < i), matchNode (rs.get ⟨j, Nat.lt_trans hj hi⟩).1 n [] = none) →
    matchNode (rs.get ⟨i, hi⟩).1 n [] = some env →
    applyRules rs n = (fillNode (rs.get ⟨i, hi⟩).2 env).toOption := by
  intro rs
  induction rs with
  | nil => intro n i hi; exact absurd hi (by simp)
  | cons hd tl IH =>
      intro n i hi env hprev hm
      cases i with
      | zero =>
          obtain ⟨p, r⟩ := hd
          have hm2 : matchNode p n [] = some env := hm
          show applyRules ((p, r) :: tl) n = (fillNode r env).toOption
          simp [applyRules, hm2]
      | succ i2 =>
          obtain ⟨p, r⟩ := hd
          have h0 : matchNode p n [] = none := hprev 0 (Nat.succ_pos i2)
          have hi2 : i2 < tl.length := Nat.lt_of_succ_lt_succ hi
          have happ : applyRules ((p, r) :: tl) n = applyRules tl n := by
            simp only [applyRules, h0]
          rw [happ]
          have hprev2 : ∀ (j : Nat) (hj : j < i2),
              matchNode (tl.get ⟨j, Nat.lt_trans hj hi2⟩).1 n [] = none :=
            fun j hj => hprev (j + 1) (Nat.succ_lt_succ hj)
          exact IH n i2 hi2 env hprev2 hm

set_option maxHeartbeats 800000 in
theorem rules_fill_ok : ∀ (p r : Node), (p, r) ∈ rules → ∀ (n : Node) (env : Env),
    matchNode p n [] = some env → ∃ filled, fillNode r env = Except.ok filled := by
  intro p r hm n env h
  simp only [rules, List.mem_cons, List.not_mem_nil, or_false, Prod.mk.injEq] at hm
  rcases hm with hmr | hmr | hmr | hmr | hmr | hmr | hmr | hmr | hmr | hmr | hmr | hmr | hmr
  · obtain ⟨rfl, rfl⟩ := hmr
    obtain ⟨hn, rfl⟩ := inv1 h
    exact ⟨_, rfl⟩
  · obtain ⟨rfl, rfl⟩ := hmr
    obtain ⟨hn, rfl⟩ := inv2 h
    exact ⟨_, rfl⟩
  · obtain ⟨rfl, rfl⟩ := hmr
    obtain ⟨hn, rfl⟩ := inv3 h
    exact ⟨_, rfl⟩
  · obtain ⟨rfl, rfl⟩ := hmr
    obtain ⟨e1, e2, hn, h1, h2⟩ := inv4 h
    exact ⟨.ifStatement e1 (.expressionStatement e2) none,
      by simp [rep4, fillNode, fillOpt, h1, h2]⟩
  · obtain ⟨rfl, rfl⟩ := hmr
    obtain ⟨e1, e2, hn, h1, h2⟩ := inv5 h
    exact ⟨.ifStatement (.unaryExpression "!" e1) (.expressionStatement e2) none,
      by simp [rep5, fillNode, fillOpt, h1, h2]⟩
  · obtain ⟨rfl, rfl⟩ := hmr
    obtain ⟨e1, e2, e3, hn, h1, h2, h3⟩ := inv6 h
    exact ⟨.ifStatement e1 (.expressionStatement e2) (some (.expressionStatement e3)),
      by simp [rep6, fillNode, fillOpt, h1, h2, h3]⟩
  · obtain ⟨rfl, rfl⟩ := hmr
    obtain ⟨e1, s1, hn, h1, h2⟩ := inv7 h
    exact ⟨.ifStatement e1 (.blockStatement [s1]) none,
      by simp [rep7, fillNode, fillList, fillOpt, h1, h2]⟩
  · obtain ⟨rfl, rfl⟩ := hmr
    obtain ⟨e1, s1, hn, h1, h2⟩ := inv8 h
    exact ⟨.whileStatement e1 (.blockStatement [s1]),
      by simp [rep8, fillNode, fillList, h1, h2]⟩
  · obtain ⟨rfl, rfl⟩ := hmr
    obtain ⟨s1, e1, hn, h1, h2⟩ := inv9 h
    exact ⟨.doWhileStatement (.blockStatement [s1]) e1,
      by simp [rep9, fillNode, fillList, h1, h2]⟩
  · obtain ⟨rfl, rfl⟩ := hmr
    obtain ⟨e1, e2, e3, s1, hn, h1, h2, h3, h4⟩ := inv10 h
    exact ⟨.forStatement (some e1) (some e2) (some e3) (.blockStatement [s1]),
      by simp [rep10, fillNode, fillList, fillOpt, h1, h2, h3, h4]⟩
  · obtain ⟨rfl, rfl⟩ := hmr
    obtain ⟨e1, e2, s1, hn, h1, h2, h3⟩ := inv11 h
    exact ⟨.forInStatement e1 e2 (.blockStatement [s1]),
      by simp [rep11, fillNode, fillList, h1, h2, h3]⟩
  · obtain ⟨rfl, rfl⟩ := hmr
    obtain ⟨e1, e2, s1, hn, h1, h2, h3⟩ := inv12 h
    exact ⟨.forOfStatement e1 e2 (.blockStatement [s1]),
      by simp [rep12, fillNode, fillList, h1, h2, h3]⟩
  · obtain ⟨rfl, rfl⟩ := hmr
    exact ⟨rep13, by simp [rep13, fillNode, fillList, fillOpt]⟩

/-- Fresh-name search of the function-declaration special case of
rewriteCode.js (lines 77 to 85), fuelled: newName starts as the
replacement's fixed name, and while the scope's binding set contains
newName the loop recomputes it as the fixed name concatenated with the
loop variable i, which the source initialises to 1 and never increments.
none models exhausting every iteration budget. -/
def renameLoop : Nat → String → String → List String → Option String
  | 0, _, _, _ => none
  | fuel + 1, base, cur, taken =>
      if taken.contains cur then renameLoop fuel base (base ++ toString 1) taken
      else some cur

/-- Abstraction of a filesystem path for the termination analysis of
ensureParentDirExists of io.js: a flag telling whether the path is
absolute and its list of segments.  The relative empty path stands for
the dot directory "." and the absolute empty path for the filesystem
root "/". -/
structure FPath where
  absolute : Bool
  segs : List String
deriving DecidableEq

/-- Parent of a path as path.dirname computes it: the last segment is
dropped; the dirname of the dot directory is the dot directory, and the
dirname of the filesystem root is the root itself. -/
def dirname (p : FPath) : FPath := ⟨p.absolute, p.segs.dropLast⟩

/-- ensureParentDirExists of io.js, fuelled: take the parent directory,
return when it is falsy or the dot directory, otherwise recurse on the
parent (the mkdir call that follows the recursion has no bearing on
termination and is not modelled); none models exhausting every recursion
depth. -/
def ensureF : Nat → FPath → Option Unit
  | 0, _ => none
  | fuel + 1, p =>
      let dir := dirname p
      if !dir.absolute && dir.segs.isEmpty then some ()
      else (ensureF fuel dir).map fun _ => ()

@[simp] theorem ek2_sk1 : streq (expressionKey 2) (statementKey 1) = false := by decide

@[simp] theorem ek3_sk1 : streq (expressionKey 3) (statementKey 1) = false := by decide

theorem ensureF_succ (fuel : Nat) (p : FPath) :
    ensureF (fuel + 1) p =
      if !(dirname p).absolute && (dirname p).segs.isEmpty then some ()
      else (ensureF fuel (dirname p)).map fun _ => () := rfl

/-- Claim C1: refuted (code bug).  The fresh-name search of the rename
special case never increments its loop variable i, so from the second
iteration on the candidate name is the fixed base name with suffix 1
forever: whenever that name is also bound in the scope, no iteration
budget suffices and the loop never terminates, contradicting the claimed
termination with an increasing numeric suffix for every scope. -/
theorem c1_rename_loop_diverges :
    ∀ (fuel : Nat) (base : String) (taken : List String),
    taken.contains (base ++ toString 1) = true →
    ∀ cur, taken.contains cur = true →
    renameLoop fuel base cur taken = none := by
  intro fuel
  induction fuel with
  | zero => intro base taken h1 cur hc; rfl
  | succ f IH =>
      intro base taken h1 cur hc
      simp only [renameLoop]
      rw [if_pos hc]
      exact IH base taken h1 _ h1

/-- Concrete divergence of the fresh-name search: the interop helper
name and its 1-suffixed variant are both bound in the scope, and a
budget of 1000 iterations still returns no name. -/
theorem c1_rename_loop_diverges_witness :
    renameLoop 1000 "_interopRequireDefault" "_interopRequireDefault"
      ["_interopRequireDefault", "_interopRequireDefault1"] = none :=
  c1_rename_loop_diverges 1000 "_interopRequireDefault"
    ["_interopRequireDefault", "_interopRequireDefault1"] (by decide) _ (by decide)

/-- Claim C2 (amended): the enter hook braces the bare body of an
if/while/do/for/for-in/for-of statement exactly when that body is a
compound (multiLine) statement, as the rule table's multiLine modifier
demands; in the end-to-end scenario the outer conditional's compound
body is braced while the inner atomic single-statement body stays
un-braced. -/
theorem c2_bare_body_bracing :
    (∀ t b, isExpression t = true → isStatement b = true → isMultiLine b = true →
        enter (.ifStatement t b none) = .ifStatement t (.blockStatement [b]) none) ∧
    (∀ t b, isExpression t = true → isStatement b = true → isMultiLine b = true →
        enter (.whileStatement t b) = .whileStatement t (.blockStatement [b])) ∧
    (∀ t b, isExpression t = true → isStatement b = true → isMultiLine b = true →
        enter (.doWhileStatement b t) = .doWhileStatement (.blockStatement [b]) t) ∧
    (∀ i te u b, (isExpression i || isDeclaration i) = true → isExpression te = true →
        isExpression u = true → isStatement b = true → isMultiLine b = true →
        enter (.forStatement (some i) (some te) (some u) b) =
          .forStatement (some i) (some te) (some u) (.blockStatement [b])) ∧
    (∀ l r b, (isExpression l || isDeclaration l) = true → isExpression r = true →
        isStatement b = true → isMultiLine b = true →
        enter (.forInStatement l r b) = .forInStatement l r (.blockStatement [b])) ∧
    (∀ l r b, (isExpression l || isDeclaration l) = true → isExpression r = true →
        isStatement b = true → isMultiLine b = true →
        enter (.forOfStatement l r b) = .forOfStatement l r (.blockStatement [b])) ∧
    rewrite (.program [.ifStatement (.identifier "cond")
        (.ifStatement (.identifier "x") (.expressionStatement (.identifier "y")) none) none]) =
      .program [.ifStatement (.identifier "cond")
        (.blockStatement [.ifStatement (.identifier "x")
          (.expressionStatement (.identifier "y")) none]) none] := by
  refine ⟨?_, ?_, ?_, ?_, ?_, ?_, by rfl⟩
  · intro t b ht hb hm
    rw [enter_not_seq (fun es h => Node.noConfusion h)]
    simp [applyRules, rules, pat1, pat2, pat3, pat4, pat5, pat6, pat7, rep7,
      matchNode, matchOpt, bindKey, envLookup, fillNode, fillList, fillOpt,
      Except.toOption, ht, hb, hm]
  · intro t b ht hb hm
    rw [enter_not_seq (fun es h => Node.noConfusion h)]
    simp [applyRules, rules, pat1, pat2, pat3, pat4, pat5, pat6, pat7, pat8, rep8,
      matchNode, matchOpt, bindKey, envLookup, fillNode, fillList, fillOpt,
      Except.toOption, ht, hb, hm]
  · intro t b ht hb hm
    rw [enter_not_seq (fun es h => Node.noConfusion h)]
    simp [applyRules, rules, pat1, pat2, pat3, pat4, pat5, pat6, pat7, pat8, pat9, rep9,
      matchNode, matchOpt, bindKey, envLookup, fillNode, fillList, fillOpt,
      Except.toOption, ht, hb, hm]
  · intro i te u b hi hte hu hb hm
    rw [enter_not_seq (fun es h => Node.noConfusion h)]
    simp [applyRules, rules, pat1, pat2, pat3, pat4, pat5, pat6, pat7, pat8, pat9, pat10,
      rep10, matchNode, matchOpt, bindKey, envLookup, fillNode, fillList, fillOpt,
      Except.toOption, hi, hte, hu, hb, hm]
  · intro l r b hl hr hb hm
    rw [enter_not_seq (fun es h => Node.noConfusion h)]
    simp [applyRules, rules, pat1, pat2, pat3, pat4, pat5, pat6, pat7, pat8, pat9, pat10,
      pat11, rep11, matchNode, matchOpt, bindKey, envLookup, fillNode, fillList, fillOpt,
      Except.toOption, hl, hr, hb, hm]
  · intro l r b hl hr hb hm
    rw [enter_not_seq (fun es h => Node.noConfusion h)]
    simp [applyRules, rules, pat1, pat2, pat3, pat4, pat5, pat6, pat7, pat8, pat9, pat10,
      pat11, pat12, rep12, matchNode, matchOpt, bindKey, envLookup, fillNode, fillList,
      fillOpt, Except.toOption, hl, hr, hb, hm]

/-- Claim C2, counterexample to the original wording: the claimed output
braces the inner atomic single-statement body as well, but the driver
leaves an atomic body un-braced (the rule's statement placeholder
carries the multiLine modifier), so the rewrite of the nested
conditional differs from the claimed tree. -/
theorem c2_inner_atomic_counterexample :
    rewrite (.program [.ifStatement (.identifier "cond")
        (.ifStatement (.identifier "x") (.expressionStatement (.identifier "y")) none) none]) ≠
      .program [.ifStatement (.identifier "cond")
        (.blockStatement [.ifStatement (.identifier "x")
          (.blockStatement [.expressionStatement (.identifier "y")]) none]) none] := by
  decide

/-- Claim C3: an expression statement wrapping a comma-sequence is
replaced by the enter hook, before and instead of any rule matching,
with a transient Program container holding one expression statement per
sequence element in the original order; the traversal then visits each
produced statement recursively; the end-to-end scenario splits the
sequence statement of a, b and c into the three expression statements. -/
theorem c3_comma_sequence_expansion :
    (∀ es : List Node, enter (.expressionStatement (.sequenceExpression es)) =
        .program (es.map .expressionStatement)) ∧
    (∀ (pb : Bool) (es : List Node),
        visit pb (.expressionStatement (.sequenceExpression es)) =
          leaveStep pb (.program (es.map (fun e => visit true (.expressionStatement e))))) ∧
    rewrite (.program [.expressionStatement (.sequenceExpression
        [.identifier "a", .identifier "b", .identifier "c"])]) =
      .program [.expressionStatement (.identifier "a"),
        .expressionStatement (.identifier "b"),
        .expressionStatement (.identifier "c")] := by
  refine ⟨fun es => rfl, ?_, by rfl⟩
  intro pb es
  rw [visit_eq]
  simp only [enter, isBlockLike, mapChildren, List.map_map]
  rfl

/-- Claim C4: at a visited node that is not a comma-sequence expression
statement the enter hook scans the rule table in its fixed order: when
no rule's pattern matches the node is left unchanged, and when the rules
before index i all fail while rule i matches, the node is replaced by
rule i's replacement template filled with the produced environment (so
no later rule is tried). -/
theorem c4_first_match_wins (n : Node) (hseq : isSeqES n = false) :
    ((∀ pr ∈ rules, matchNode pr.1 n [] = none) → enter n = n) ∧
    (∀ (i : Nat) (hi : i < rules.length) (env : Env),
      (∀ (j : Nat) (hj : j < i), matchNode (rules.get ⟨j, Nat.lt_trans hj hi⟩).1 n [] = none) →
      matchNode (rules.get ⟨i, hi⟩).1 n [] = some env →
      ∃ filled, fillNode (rules.get ⟨i, hi⟩).2 env = Except.ok filled ∧ enter n = filled) := by
  have hns : ∀ es, n ≠ .expressionStatement (.sequenceExpression es) := by
    intro es he
    rw [he] at hseq
    simp [isSeqES] at hseq
  have hen : enter n = (applyRules rules n).getD n := enter_not_seq hns
  constructor
  · intro hall
    rw [hen, applyRules_nomatch rules n hall]
    rfl
  · intro i hi env hprev hm
    obtain ⟨filled, hf⟩ := rules_fill_ok (rules.get ⟨i, hi⟩).1 (rules.get ⟨i, hi⟩).2
      (by rw [Prod.mk.eta]; exact List.get_mem rules i hi) n env hm
    refine ⟨filled, hf, ?_⟩
    rw [hen, applyRules_first rules n i hi env hprev hm, hf]
    rfl

/-- Concrete first match: the bang-one idiom is matched by rule 1 with
the empty environment and the enter hook rewrites it to the literal
false. -/
theorem c4_first_match_wins_witness :
    ∃ filled, fillNode (rules.get ⟨0, by decide⟩).2 [] = Except.ok filled ∧
      enter (.unaryExpression "!" (.literal (.num 1))) = filled :=
  (c4_first_match_wins (.unaryExpression "!" (.literal (.num 1))) rfl).2 0 (by decide)
    [] (fun j hj => absurd hj (Nat.not_lt_zero j)) rfl

/-- Claim C5: when the input tree carries no transient Program container
strictly below its root, the rewritten tree carries none either: every
container the pass creates is spliced into its block-like parent's
statement sequence or coerced into a genuine block before the traversal
returns. -/
theorem c5_no_transient_container (t : Node)
    (h : occursL isProg (nodeChildren t) = false) :
    occursL isProg (nodeChildren (rewrite t)) = false ∧
    ∀ c ∈ nodeChildren (rewrite t), hasProg c = false := by
  have h2 := visit_prog (size t) t true le_rfl h
  exact ⟨h2.1, fun c hc => occursL_all.1 h2.1 c hc⟩

/-- Concrete run of the container invariant: rewriting a program whose
single statement is a comma-sequence passes through a transient
container, and the result has no Program node below its root. -/
theorem c5_no_transient_container_witness :
    occursL isProg (nodeChildren (rewrite (Node.program [.expressionStatement
        (.sequenceExpression [.identifier "a", .identifier "b"])]))) = false ∧
    ∀ c ∈ nodeChildren (rewrite (Node.program [.expressionStatement
        (.sequenceExpression [.identifier "a", .identifier "b"])])), hasProg c = false :=
  c5_no_transient_container _ rfl

/-- Claim C6: rewriting the negated literal !1 yields the literal false
and rewriting !0 yields the literal true, and after a full rewrite of
any tree no occurrence of either negated-literal idiom remains anywhere
in the result. -/
theorem c6_bang_literal_rewrites (t : Node) :
    rewrite (.unaryExpression "!" (.literal (.num 1))) = .literal (.bool false) ∧
    rewrite (.unaryExpression "!" (.literal (.num 0))) = .literal (.bool true) ∧
    hasBang (rewrite t) = false :=
  ⟨rfl, rfl, visit_bang (size t) t true le_rfl⟩

/-- Claim C7: filling a template under an environment that lacks a
placeholder key the template references always fails with an error,
however many of the other referenced keys are bound: a successful fill
is impossible. -/
theorem c7_fill_missing_key (t : Node) (env : Env) (k : String)
    (hk : k ∈ refs t) (hmiss : envLookup env k = none) :
    ∃ e, fillNode t env = Except.error e := by
  cases hf : fillNode t env with
  | error e => exact ⟨e, rfl⟩
  | ok r =>
      have hs := fill_ok_refs_all.1 t env r hf k hk
      rw [hmiss] at hs
      simp at hs

/-- Concrete failing fill: the call template references placeholder2,
the environment supplies only placeholder1, and the fill errors. -/
theorem c7_fill_missing_key_witness :
    ∃ e, fillNode (Node.callExpression (.identifier "placeholder1")
        [.identifier "placeholder2"]) [("placeholder1", Binding.name "f")] =
      Except.error e :=
  c7_fill_missing_key (Node.callExpression (.identifier "placeholder1")
      [.identifier "placeholder2"]) [("placeholder1", Binding.name "f")]
    "placeholder2" (by decide) rfl

/-- Claim C8: a statement placeholder carrying the multiLine modifier
matches a statement exactly when the statement's kind belongs to the
compound/control-flow family, and without the modifier it matches any
statement. -/
theorem c8_multiline_modifier (i : Nat) (n : Node) (hs : isStatement n = true) :
    (matchNode (.statementPlaceholder i true) n []).isSome = isMultiLine n ∧
    (matchNode (.statementPlaceholder i false) n []).isSome = true := by
  constructor
  · cases hm : isMultiLine n <;> simp [matchNode, hs, hm, bindKey, envLookup]
  · simp [matchNode, hs, bindKey, envLookup]

/-- Concrete modifier check: a conditional whose body is a single
statement is a statement of the compound family, so the multiLine
placeholder accepts it and so does the unmodified one. -/
theorem c8_multiline_modifier_witness :
    (matchNode (.statementPlaceholder 1 true) (Node.ifStatement (.identifier "a")
        (.expressionStatement (.identifier "b")) none) []).isSome =
      isMultiLine (Node.ifStatement (.identifier "a")
        (.expressionStatement (.identifier "b")) none) ∧
    (matchNode (.statementPlaceholder 1 false) (Node.ifStatement (.identifier "a")
        (.expressionStatement (.identifier "b")) none) []).isSome = true :=
  c8_multiline_modifier 1 (Node.ifStatement (.identifier "a")
    (.expressionStatement (.identifier "b")) none) rfl

/-- Claim C9: a match binds every occurrence of a placeholder key to
equal values: binding a key either finds it absent or finds the very
value already bound (deep structural equality through bindingBEq), the
environment a successful match produces fills the pattern back to the
matched node, and the mixed-up repeated generic and statement
placeholders of the tests make the whole match fail. -/
theorem c9_placeholder_consistency :
    (∀ (p n : Node) (env : Env), matchNode p n [] = some env →
        fillNode p env = Except.ok n) ∧
    (∀ (k : String) (v : Binding) (env env2 : Env), bindKey k v env = some env2 →
        envLookup env k = none ∨ envLookup env k = some v) ∧
    matchNode (.assignmentExpression "=" (.identifier "placeholder1")
        (.identifier "placeholder1"))
      (.assignmentExpression "=" (.identifier "a") (.identifier "b")) [] = none ∧
    matchNode (.blockStatement [.statementPlaceholder 1 false, .statementPlaceholder 1 false])
      (.blockStatement [.expressionStatement (.identifier "a"),
        .expressionStatement (.identifier "b")]) [] = none := by
  refine ⟨fun p n env h => match_fill h, ?_, rfl, rfl⟩
  intro k v env env2 hb
  unfold bindKey at hb
  cases hl : envLookup env k with
  | none => exact Or.inl rfl
  | some w =>
      rw [hl] at hb
      by_cases hbe : bindingBEq w v = true
      · have hwv := (bindingBEq_iff w v).1 hbe
        exact Or.inr (by rw [hwv])
      · simp [hbe] at hb

/-- Claim C10: settled as a code bug.  ensureParentDirExists terminates
on every relative path, since the dirname chain loses a segment per step
and ends at the dot directory the guard stops at; but on an absolute
path the chain ends at the filesystem root, whose dirname is itself, and
the guard only stops at a falsy or dot parent, so the recursion exhausts
any depth and never returns, refuting the claimed termination for
absolute paths. -/
theorem c10_ensure_parent_termination :
    (∀ (fuel : Nat) (segs : List String), segs.length ≤ fuel →
        ensureF (fuel + 1) ⟨false, segs⟩ = some ()) ∧
    (∀ (fuel : Nat) (p : FPath), p.absolute = true → ensureF fuel p = none) := by
  constructor
  · intro fuel
    induction fuel with
    | zero =>
        intro segs hlen
        have h0 : segs = [] := List.eq_nil_of_length_eq_zero (Nat.le_zero.1 hlen)
        subst h0
        rfl
    | succ f IH =>
        intro segs hlen
        rw [ensureF_succ]
        by_cases hd : segs.dropLast = []
        · simp [dirname, hd]
        · have hie : segs.dropLast.isEmpty = false := by
            cases hsl : segs.dropLast with
            | nil => exact absurd hsl hd
            | cons a as => rfl
          have hrec := IH segs.dropLast (by
            have hdl := segs.length_dropLast
            omega)
          simp [dirname, hie, hrec]
  · intro fuel
    induction fuel with
    | zero => intro p hp; rfl
    | succ f IH =>
        intro p hp
        rw [ensureF_succ]
        have hrec : ensureF f ⟨true, p.segs.dropLast⟩ = none := by
          have hr0 := IH (dirname p) (by simp [dirname, hp])
          simpa [dirname, hp] using hr0
        simp [dirname, hp, hrec]

end JsA
